import Mathlib

/-!
Verification development for the verdandi repository: a shallow embedding of
the checkpointed pipeline orchestrator, the retry / circuit-breaker utilities,
and the multi-worker topic reservation subsystem, together with theorems
settling the stated properties.
-/

namespace Verdandi

/-! ## Embedding of src/verdandi/retry.py -/

/-- Result of invoking a fallible callable: it either returns a value or
raises an exception. -/
inductive Outcome (α ε : Type) where
  | ok : α → Outcome α ε
  | err : ε → Outcome α ε
deriving DecidableEq

/-- The possible terminations of with_retry: a returned value, a
RetryExhaustedError wrapping the last failure, or a non-retryable
exception that propagates unchanged. -/
inductive RetryResult (α ε : Type) where
  | success : α → RetryResult α ε
  | exhausted : ε → RetryResult α ε
  | propagated : ε → RetryResult α ε
deriving DecidableEq

/-- The attempt loop of with_retry (retry.py lines 50-73).  `fn` is indexed by
the attempt number (0-based); `remaining` counts the attempts left after the
current one, so the loop starts with `remaining = max_retries`.  The second
component counts how many times `fn` was invoked.  The sleep/backoff between
attempts has no effect on the returned value and is not modelled. -/
def withRetryGo (fn : Nat → Outcome α ε) (retryable : ε → Bool) :
    Nat → Nat → RetryResult α ε × Nat
  | attempt, 0 =>
    match fn attempt with
    | .ok a => (.success a, 1)
    | .err e => if retryable e then (.exhausted e, 1) else (.propagated e, 1)
  | attempt, r + 1 =>
    match fn attempt with
    | .ok a => (.success a, 1)
    | .err e =>
      if retryable e then
        let rec_ := withRetryGo fn retryable (attempt + 1) r
        (rec_.1, rec_.2 + 1)
      else (.propagated e, 1)

/-- with_retry (retry.py lines 35-73): run `fn` for at most
`max_retries + 1` attempts, catching only errors satisfying `retryable`. -/
def with_retry (fn : Nat → Outcome α ε) (max_retries : Nat)
    (retryable : ε → Bool) : RetryResult α ε × Nat :=
  withRetryGo fn retryable 0 max_retries

theorem withRetryGo_count_le (fn : Nat → Outcome α ε) (retryable : ε → Bool) :
    ∀ r a, (withRetryGo fn retryable a r).2 ≤ r + 1 := by
  intro r
  induction r with
  | zero =>
    intro a
    unfold withRetryGo
    cases fn a with
    | ok v => simp
    | err e => by_cases h : retryable e <;> simp [h]
  | succ n ih =>
    intro a
    unfold withRetryGo
    cases fn a with
    | ok v => simp
    | err e =>
      by_cases h : retryable e
      · simpa [h] using Nat.add_le_add_right (ih (a + 1)) 1
      · simp [h]

theorem withRetryGo_success (fn : Nat → Outcome α ε) (retryable : ε → Bool) :
    ∀ k a r v, fn (a + k) = .ok v → k ≤ r →
      (∀ j, j < k → ∃ e, fn (a + j) = .err e ∧ retryable e = true) →
      withRetryGo fn retryable a r = (.success v, k + 1) := by
  intro k
  induction k with
  | zero =>
    intro a r v hok _ _
    cases r with
    | zero => unfold withRetryGo; rw [show a + 0 = a from rfl] at hok; rw [hok]
    | succ n => unfold withRetryGo; rw [show a + 0 = a from rfl] at hok; rw [hok]
  | succ n ih =>
    intro a r v hok hle hprev
    obtain ⟨e, he, hre⟩ := hprev 0 (Nat.succ_pos n)
    cases r with
    | zero => omega
    | succ m =>
      unfold withRetryGo
      rw [show a + 0 = a from rfl] at he
      rw [he]
      simp only [hre, if_true]
      have hrec : withRetryGo fn retryable (a + 1) m = (.success v, n + 1) := by
        apply ih
        · rw [show a + 1 + n = a + (n + 1) from by omega]; exact hok
        · omega
        · intro j hj
          obtain ⟨e2, he2, hre2⟩ := hprev (j + 1) (by omega)
          exact ⟨e2, by rw [show a + 1 + j = a + (j + 1) from by omega]; exact he2, hre2⟩
      rw [hrec]

theorem withRetryGo_exhausted (fn : Nat → Outcome α ε) (retryable : ε → Bool) :
    ∀ r a, (∀ j, j ≤ r → ∃ e, fn (a + j) = .err e ∧ retryable e = true) →
      ∃ e, fn (a + r) = .err e ∧
        withRetryGo fn retryable a r = (.exhausted e, r + 1) := by
  intro r
  induction r with
  | zero =>
    intro a h
    obtain ⟨e, he, hre⟩ := h 0 (Nat.le_refl 0)
    refine ⟨e, he, ?_⟩
    unfold withRetryGo
    rw [show a + 0 = a from rfl] at he
    rw [he]
    simp [hre]
  | succ n ih =>
    intro a h
    obtain ⟨e0, he0, hre0⟩ := h 0 (Nat.zero_le _)
    obtain ⟨e, he, hgo⟩ := ih (a + 1) (by
      intro j hj
      obtain ⟨e2, he2, hre2⟩ := h (j + 1) (by omega)
      exact ⟨e2, by rw [show a + 1 + j = a + (j + 1) from by omega]; exact he2, hre2⟩)
    refine ⟨e, by rw [show a + (n + 1) = a + 1 + n from by omega]; exact he, ?_⟩
    unfold withRetryGo
    rw [show a + 0 = a from rfl] at he0
    rw [he0]
    simp only [hre0, if_true, hgo]

theorem withRetryGo_propagated (fn : Nat → Outcome α ε) (retryable : ε → Bool) :
    ∀ k a r e, fn (a + k) = .err e → retryable e = false → k ≤ r →
      (∀ j, j < k → ∃ e2, fn (a + j) = .err e2 ∧ retryable e2 = true) →
      withRetryGo fn retryable a r = (.propagated e, k + 1) := by
  intro k
  induction k with
  | zero =>
    intro a r e herr hnr _ _
    rw [show a + 0 = a from rfl] at herr
    cases r with
    | zero => unfold withRetryGo; rw [herr]; simp [hnr]
    | succ n => unfold withRetryGo; rw [herr]; simp [hnr]
  | succ n ih =>
    intro a r e herr hnr hle hprev
    obtain ⟨e0, he0, hre0⟩ := hprev 0 (Nat.succ_pos n)
    cases r with
    | zero => omega
    | succ m =>
      unfold withRetryGo
      rw [show a + 0 = a from rfl] at he0
      rw [he0]
      simp only [hre0, if_true]
      have hrec : withRetryGo fn retryable (a + 1) m = (.propagated e, n + 1) := by
        apply ih
        · rw [show a + 1 + n = a + (n + 1) from by omega]; exact herr
        · exact hnr
        · omega
        · intro j hj
          obtain ⟨e2, he2, hre2⟩ := hprev (j + 1) (by omega)
          exact ⟨e2, by rw [show a + 1 + j = a + (j + 1) from by omega]; exact he2, hre2⟩
      rw [hrec]

/-- A callable that fails on its first two invocations and then succeeds. -/
def failTwiceFn : Nat → Outcome Nat Nat := fun k => if k < 2 then .err k else .ok 42

/-- A callable that fails on every invocation. -/
def alwaysFailFn : Nat → Outcome Nat Nat := fun k => .err k

/-- A callable whose first invocation raises error 7, treated as
non-retryable below. -/
def failHardFn : Nat → Outcome Nat Nat := fun k => if k = 0 then .err 7 else .ok 1

/-- C3: with_retry invokes fn at most max_retries+1 times; it returns the
first successful result immediately (after k earlier retryable failures it
has invoked fn exactly k+1 times); if every invocation raises a retryable
error it returns RetryExhaustedError wrapping the last failure after exactly
max_retries+1 attempts; and a non-retryable error propagates immediately
with no further attempts consumed. -/
theorem with_retry_spec (α ε : Type) (fn : Nat → Outcome α ε)
    (retryable : ε → Bool) (m : Nat) :
    ((with_retry fn m retryable).2 ≤ m + 1)
    ∧ (∀ k v, k ≤ m → fn k = .ok v →
        (∀ j, j < k → ∃ e, fn j = .err e ∧ retryable e = true) →
        with_retry fn m retryable = (.success v, k + 1))
    ∧ ((∀ j, j ≤ m → ∃ e, fn j = .err e ∧ retryable e = true) →
        ∃ e, fn m = .err e ∧ with_retry fn m retryable = (.exhausted e, m + 1))
    ∧ (∀ k e, k ≤ m → fn k = .err e → retryable e = false →
        (∀ j, j < k → ∃ e2, fn j = .err e2 ∧ retryable e2 = true) →
        with_retry fn m retryable = (.propagated e, k + 1)) := by
  refine ⟨withRetryGo_count_le fn retryable m 0, ?_, ?_, ?_⟩
  · intro k v hk hok hprev
    exact withRetryGo_success fn retryable k 0 m v (by simpa using hok) hk
      (by simpa using hprev)
  · intro hall
    obtain ⟨e, he, hgo⟩ := withRetryGo_exhausted fn retryable m 0
      (by simpa using hall)
    exact ⟨e, by simpa using he, hgo⟩
  · intro k e hk herr hnr hprev
    exact withRetryGo_propagated fn retryable k 0 m e (by simpa using herr) hnr hk
      (by simpa using hprev)

/-- Concrete check of C3: failing twice then succeeding under max_retries = 3
returns the success after exactly 3 invocations; always failing under
max_retries = 3 exhausts after exactly 4 invocations; a non-retryable error
propagates after a single invocation. -/
theorem with_retry_spec_witness :
    ((with_retry failTwiceFn 3 (fun _ => true)).2 ≤ 4)
    ∧ (with_retry failTwiceFn 3 (fun _ => true) = (.success 42, 3))
    ∧ (∃ e, alwaysFailFn 3 = .err e ∧
        with_retry alwaysFailFn 3 (fun _ => true) = (.exhausted e, 4))
    ∧ (with_retry failHardFn 3 (fun e => decide (e ≠ 7)) = (.propagated 7, 1)) := by
  refine ⟨(with_retry_spec Nat Nat failTwiceFn (fun _ => true) 3).1, ?_, ?_, ?_⟩
  · exact (with_retry_spec Nat Nat failTwiceFn (fun _ => true) 3).2.1 2 42
      (by decide) (by decide) (fun j hj => ⟨j, by simp [failTwiceFn, hj], rfl⟩)
  · exact (with_retry_spec Nat Nat alwaysFailFn (fun _ => true) 3).2.2.1
      (fun j _ => ⟨j, rfl, rfl⟩)
  · exact (with_retry_spec Nat Nat failHardFn (fun e => decide (e ≠ 7)) 3).2.2.2 0 7
      (by decide) (by decide) (by decide) (fun j hj => absurd hj (by omega))

/-! ## Embedding of the CircuitBreaker (src/verdandi/retry.py lines 107-159)

The wall clock (time.time()) is passed explicitly as a rational number. -/

/-- The CircuitBreaker dataclass: configuration plus the three mutable
fields _failure_count, _last_failure_time and _is_open. -/
structure CircuitBreaker where
  name : String
  failure_threshold : Nat := 5
  reset_timeout : ℚ := 60
  failureCount : Nat := 0
  lastFailureTime : ℚ := 0
  isOpenF : Bool := false
deriving DecidableEq

/-- The is_open property (retry.py lines 123-130): auto-reset when more than
reset_timeout seconds have elapsed since the last failure, then report the
flag. -/
def isOpenCheck (cb : CircuitBreaker) (now : ℚ) : CircuitBreaker × Bool :=
  if cb.isOpenF = true ∧ cb.reset_timeout < now - cb.lastFailureTime then
    ({ cb with isOpenF := false, failureCount := 0 }, false)
  else (cb, cb.isOpenF)

/-- record_success (retry.py lines 132-135). -/
def record_success (cb : CircuitBreaker) : CircuitBreaker :=
  { cb with failureCount := 0, isOpenF := false }

/-- record_failure (retry.py lines 137-147). -/
def record_failure (cb : CircuitBreaker) (now : ℚ) : CircuitBreaker :=
  let cb2 := { cb with failureCount := cb.failureCount + 1, lastFailureTime := now }
  if cb2.failure_threshold ≤ cb2.failureCount then { cb2 with isOpenF := true } else cb2

/-- Outcome of CircuitBreaker.call: the value, the distinct CircuitOpenError,
or the underlying error re-raised. -/
inductive CallResult (α ε : Type) where
  | ok : α → CallResult α ε
  | circuitOpen : CallResult α ε
  | err : ε → CallResult α ε
deriving DecidableEq

/-- call (retry.py lines 149-159).  The final Bool records whether fn was
invoked. -/
def breakerCall (cb : CircuitBreaker) (now : ℚ) (fn : Outcome α ε) :
    CircuitBreaker × CallResult α ε × Bool :=
  let chk := isOpenCheck cb now
  if chk.2 then (chk.1, .circuitOpen, false)
  else
    match fn with
    | .ok a => (record_success chk.1, .ok a, true)
    | .err e => (record_failure chk.1 now, .err e, true)

/-- A sequence of consecutive record_failure calls at the given times. -/
def recordFailures (cb : CircuitBreaker) (ts : List ℚ) : CircuitBreaker :=
  ts.foldl record_failure cb

theorem record_failure_config (cb : CircuitBreaker) (t : ℚ) :
    (record_failure cb t).failure_threshold = cb.failure_threshold
    ∧ (record_failure cb t).reset_timeout = cb.reset_timeout
    ∧ (record_failure cb t).failureCount = cb.failureCount + 1 := by
  unfold record_failure
  by_cases h : cb.failure_threshold ≤ cb.failureCount + 1 <;> simp [h]

theorem recordFailures_config (cb : CircuitBreaker) (ts : List ℚ) :
    (recordFailures cb ts).failure_threshold = cb.failure_threshold
    ∧ (recordFailures cb ts).reset_timeout = cb.reset_timeout
    ∧ (recordFailures cb ts).failureCount = cb.failureCount + ts.length := by
  induction ts generalizing cb with
  | nil => simp [recordFailures]
  | cons t rest ih =>
    have h1 := record_failure_config cb t
    have h2 := ih (record_failure cb t)
    unfold recordFailures at h2 ⊢
    simp only [List.foldl_cons]
    refine ⟨h2.1.trans h1.1, h2.2.1.trans h1.2.1, ?_⟩
    rw [h2.2.2, h1.2.2]
    simp [List.length_cons]
    omega

theorem recordFailures_opens (cb : CircuitBreaker) (ts : List ℚ) :
    ts ≠ [] → cb.failure_threshold ≤ cb.failureCount + ts.length →
    (recordFailures cb ts).isOpenF = true := by
  induction ts generalizing cb with
  | nil => intro h; exact absurd rfl h
  | cons t rest ih =>
    intro _ hth
    unfold recordFailures
    simp only [List.foldl_cons]
    rcases rest with _ | ⟨t2, rest2⟩
    · simp only [List.foldl_nil]
      unfold record_failure
      have : cb.failure_threshold ≤ cb.failureCount + 1 := by
        simpa using hth
      simp [this]
    · apply ih
      · simp
      · have hc := (record_failure_config cb t).2.2
        have hth2 := (record_failure_config cb t).1
        rw [hc, hth2]
        simp at hth ⊢
        omega

theorem recordFailures_last_time (cb : CircuitBreaker) (ts : List ℚ) (h : ts ≠ []) :
    (recordFailures cb ts).lastFailureTime = ts.getLast h := by
  induction ts generalizing cb with
  | nil => exact absurd rfl h
  | cons t rest ih =>
    unfold recordFailures
    simp only [List.foldl_cons]
    rcases rest with _ | ⟨t2, rest2⟩
    · simp only [List.foldl_nil, List.getLast_singleton]
      unfold record_failure
      by_cases hc : cb.failure_threshold ≤ cb.failureCount + 1 <;> simp [hc]
    · rw [show List.foldl record_failure (record_failure cb t) (t2 :: rest2) =
          recordFailures (record_failure cb t) (t2 :: rest2) from rfl]
      rw [ih (record_failure cb t) (by simp)]
      simp [List.getLast_cons]

/-- C4: the CircuitBreaker state machine.  After failure_threshold
consecutive recorded failures the breaker is open and call(fn) raises
CircuitOpenError without invoking fn (and without changing the state); a
successful call resets the consecutive-failure count to zero and closes the
breaker; and once more than reset_timeout seconds have elapsed since the
last failure, the next is_open check auto-closes the breaker (no probe
call) so calls pass through and invoke fn again. -/
theorem circuit_breaker_spec (α ε : Type) (cb : CircuitBreaker) (ts : List ℚ)
    (now : ℚ) (fn : Outcome α ε) :
    (cb.failureCount = 0 → ts ≠ [] → ts.length = cb.failure_threshold →
      (recordFailures cb ts).isOpenF = true
      ∧ (now - (recordFailures cb ts).lastFailureTime ≤ cb.reset_timeout →
          breakerCall (recordFailures cb ts) now fn =
            (recordFailures cb ts, .circuitOpen, false)))
    ∧ (∀ a : α, (isOpenCheck cb now).2 = false →
        (breakerCall cb now (Outcome.ok a : Outcome α ε)).1.failureCount = 0
        ∧ (breakerCall cb now (Outcome.ok a : Outcome α ε)).1.isOpenF = false
        ∧ (breakerCall cb now (Outcome.ok a : Outcome α ε)).2 = (.ok a, true))
    ∧ (cb.isOpenF = true → cb.reset_timeout < now - cb.lastFailureTime →
        isOpenCheck cb now = ({ cb with isOpenF := false, failureCount := 0 }, false)
        ∧ (breakerCall cb now fn).2.2 = true) := by
  refine ⟨?_, ?_, ?_⟩
  · intro hcnt hne hlen
    have hopen : (recordFailures cb ts).isOpenF = true :=
      recordFailures_opens cb ts hne (by omega)
    refine ⟨hopen, ?_⟩
    intro helapsed
    have hto : (recordFailures cb ts).reset_timeout = cb.reset_timeout :=
      (recordFailures_config cb ts).2.1
    have hcond : ¬((recordFailures cb ts).isOpenF = true
        ∧ (recordFailures cb ts).reset_timeout <
            now - (recordFailures cb ts).lastFailureTime) := by
      rintro ⟨_, hlt⟩
      rw [hto] at hlt
      linarith
    have hchk : isOpenCheck (recordFailures cb ts) now = (recordFailures cb ts, true) := by
      unfold isOpenCheck
      rw [if_neg hcond, hopen]
    unfold breakerCall
    rw [hchk]
    rfl
  · intro a hclosed
    have hbc : breakerCall cb now (Outcome.ok a : Outcome α ε) =
        (record_success (isOpenCheck cb now).1, .ok a, true) := by
      unfold breakerCall
      simp [hclosed]
    rw [hbc]
    exact ⟨rfl, rfl, rfl⟩
  · intro hopen hlapsed
    have hreset : isOpenCheck cb now =
        ({ cb with isOpenF := false, failureCount := 0 }, false) := by
      unfold isOpenCheck
      simp [hopen, hlapsed]
    refine ⟨hreset, ?_⟩
    unfold breakerCall
    rw [hreset]
    simp only [Bool.false_eq_true, if_false]
    cases fn <;> rfl

/-- A breaker with threshold 2 and no recorded failures. -/
def cbFresh : CircuitBreaker := { name := "s", failure_threshold := 2 }

/-- A breaker with threshold 2 and one recorded failure (a partial streak). -/
def cbOneFail : CircuitBreaker := { name := "s", failure_threshold := 2, failureCount := 1 }

/-- A breaker with threshold 2, tripped open by a failure at time 20. -/
def cbOpenAt20 : CircuitBreaker :=
  { name := "s", failure_threshold := 2, failureCount := 2,
    lastFailureTime := 20, isOpenF := true }

/-- Concrete check of C4 with failure_threshold = 2 and reset_timeout = 60:
two failures (at times 10 and 20) open the breaker and a call at time 30
fails fast without invoking fn; a success resets a partial failure streak;
at time 100 (more than 60s past the last failure) the is_open check
auto-closes the breaker and the call invokes fn. -/
theorem circuit_breaker_spec_witness :
    ((recordFailures cbFresh [10, 20]).isOpenF = true
      ∧ breakerCall (recordFailures cbFresh [10, 20]) 30
          (Outcome.ok 1 : Outcome Nat Nat) =
          (recordFailures cbFresh [10, 20], .circuitOpen, false))
    ∧ ((breakerCall cbOneFail 30 (Outcome.ok 5 : Outcome Nat Nat)).1.failureCount = 0
      ∧ (breakerCall cbOneFail 30 (Outcome.ok 5 : Outcome Nat Nat)).1.isOpenF = false
      ∧ (breakerCall cbOneFail 30 (Outcome.ok 5 : Outcome Nat Nat)).2 = (.ok 5, true))
    ∧ (isOpenCheck cbOpenAt20 100 =
        ({ cbOpenAt20 with isOpenF := false, failureCount := 0 }, false)
      ∧ (breakerCall cbOpenAt20 100 (Outcome.ok 9 : Outcome Nat Nat)).2.2 = true) := by
  refine ⟨?_, ?_, ?_⟩
  · have h := (circuit_breaker_spec Nat Nat cbFresh [10, 20] 30 (Outcome.ok 1)).1
      rfl (by decide) rfl
    exact ⟨h.1, h.2 (by norm_num [recordFailures, record_failure, cbFresh])⟩
  · exact (circuit_breaker_spec Nat Nat cbOneFail [] 30 (Outcome.ok 5)).2.1 5 (by decide)
  · exact (circuit_breaker_spec Nat Nat cbOpenAt20 [] 100 (Outcome.ok 9)).2.2
      rfl (by norm_num [cbOpenAt20])

/-! ## Embedding of the fingerprint helpers (src/verdandi/coordination.py
lines 84-98) -/

/-- Python str.split(sep) for a one-character separator, over the list of
characters.  It always returns at least one (possibly empty) token, and
keeps empty tokens between adjacent separators, exactly like str.split. -/
def pySplit (sep : Char) (s : List Char) : List (List Char) :=
  s.foldr
    (fun c acc =>
      if c = sep then [] :: acc
      else
        match acc with
        | [] => [[c]]
        | t :: ts => (c :: t) :: ts)
    [[]]

theorem pySplit_step_ne_nil (sep c : Char) (acc : List (List Char)) :
    (if c = sep then [] :: acc
     else
       match acc with
       | [] => [[c]]
       | t :: ts => (c :: t) :: ts) ≠ [] := by
  by_cases h : c = sep
  · simp [h]
  · simp only [h, if_false]
    cases acc <;> simp

theorem pySplit_ne_nil (sep : Char) (s : List Char) : pySplit sep s ≠ [] := by
  cases s with
  | nil => simp [pySplit]
  | cons c rest =>
    unfold pySplit
    simp only [List.foldr_cons]
    exact pySplit_step_ne_nil sep c _

/-- The token set of a fingerprint: set(fp.split("|")) if fp else set(). -/
def tokenSet (fp : String) : Finset (List Char) :=
  if fp = "" then ∅ else (pySplit (Char.ofNat 124) fp.toList).toFinset

/-- jaccard_similarity (coordination.py lines 84-90). -/
def jaccard_similarity (fp1 fp2 : String) : ℚ :=
  let set1 := tokenSet fp1
  let set2 := tokenSet fp2
  if set1 = ∅ ∨ set2 = ∅ then 0
  else ((set1 ∩ set2).card : ℚ) / ((set1 ∪ set2).card : ℚ)

theorem jaccard_self : ∀ X : String, X ≠ "" → jaccard_similarity X X = 1 := by
  intro X hX
  have hset : tokenSet X ≠ ∅ := by
    unfold tokenSet
    rw [if_neg hX]
    rw [Ne, List.toFinset_eq_empty_iff]
    exact pySplit_ne_nil _ _
  unfold jaccard_similarity
  rw [if_neg (by simp [hset])]
  rw [Finset.inter_self, Finset.union_self]
  have hcard : ((tokenSet X).card : ℚ) ≠ 0 := by
    simp only [ne_eq, Nat.cast_eq_zero, Finset.card_eq_zero]
    exact hset
  exact div_self hcard

/-- C9 counterexample: the claim asserts jaccard(X, X) = 1.0 for every
fingerprint X, but at X = "" the function returns 0 (the empty-side guard
fires before the ratio is computed). -/
theorem jaccard_self_empty_counterexample :
    jaccard_similarity "" "" = 0 ∧ ¬(jaccard_similarity "" "" = 1) := by
  constructor
  · rfl
  · intro h
    have : (0 : ℚ) = 1 := by
      calc (0 : ℚ) = jaccard_similarity "" "" := rfl
        _ = 1 := h
    norm_num at this

/-- C9 (amended): jaccard computes the intersection-over-union ratio of the
pipe-separated token sets — jaccard("a|b|c|d", "a|b|e|f") = 2/6 exactly;
jaccard("", f) = 0 for every fingerprint f; and jaccard(X, X) = 1 for every
nonempty fingerprint X (for X = "" it is 0 by the empty-side guard). -/
theorem jaccard_similarity_spec :
    jaccard_similarity "a|b|c|d" "a|b|e|f" = 2 / 6
    ∧ (∀ f : String, jaccard_similarity "" f = 0)
    ∧ (∀ X : String, X ≠ "" → jaccard_similarity X X = 1) := by
  refine ⟨?_, ?_, ?_⟩
  · have h1 : (tokenSet "a|b|c|d" ∩ tokenSet "a|b|e|f").card = 2 := by decide
    have h2 : (tokenSet "a|b|c|d" ∪ tokenSet "a|b|e|f").card = 6 := by decide
    have hne : ¬(tokenSet "a|b|c|d" = ∅ ∨ tokenSet "a|b|e|f" = ∅) := by decide
    unfold jaccard_similarity
    rw [if_neg hne, h1, h2]
    norm_num
  · intro f
    simp [jaccard_similarity, tokenSet]
  · exact jaccard_self

/-- Closed check of the amended C9 at concrete nonempty input. -/
theorem jaccard_similarity_spec_witness :
    jaccard_similarity "" "x|y" = 0 ∧ jaccard_similarity "a|b" "a|b" = 1 :=
  ⟨jaccard_similarity_spec.2.1 "x|y",
   jaccard_similarity_spec.2.2 "a|b" (by decide)⟩

/-! ## Embedding of normalize_topic_key (src/verdandi/coordination.py
lines 93-98)

Strings are modelled as lists of Unicode code points; the whitespace class
is the ASCII core of the regex class \s. -/

/-- Lower-case code points a-z or digits 0-9: the characters the regex
[^a-z0-9\s-] keeps besides whitespace and the dash. -/
def isLowerAlnum (c : Nat) : Bool := decide ((97 ≤ c ∧ c ≤ 122) ∨ (48 ≤ c ∧ c ≤ 57))

/-- The ASCII whitespace code points matched by the regex class \s. -/
def pyIsSpace (c : Nat) : Bool :=
  decide (c = 32 ∨ c = 9 ∨ c = 10 ∨ c = 13 ∨ c = 11 ∨ c = 12)

/-- str.lower() on one code point (ASCII range). -/
def pyLowerChar (c : Nat) : Nat := if 65 ≤ c ∧ c ≤ 90 then c + 32 else c

/-- A code point surviving re.sub(r"[^a-z0-9\s-]", "", key). -/
def keepChar (c : Nat) : Bool := isLowerAlnum c || pyIsSpace c || decide (c = 45)

/-- str.strip(): drop leading and trailing whitespace. -/
def stripWs (s : List Nat) : List Nat :=
  ((s.dropWhile pyIsSpace).reverse.dropWhile pyIsSpace).reverse

/-- re.sub(r"\s+", "-", key): every maximal whitespace run becomes one dash
(code point 45).  The flag records whether we are inside a whitespace run. -/
def collapseWsAux : Bool → List Nat → List Nat
  | _, [] => []
  | inRun, c :: rest =>
    if pyIsSpace c then
      if inRun then collapseWsAux true rest
      else 45 :: collapseWsAux true rest
    else c :: collapseWsAux false rest

/-- normalize_topic_key (coordination.py lines 93-98). -/
def normalize_topic_key (title : List Nat) : List Nat :=
  let key1 := stripWs (title.map pyLowerChar)
  let key2 := key1.filter keepChar
  let key3 := collapseWsAux false key2
  key3.take 100

/-- String literal to code-point list, for concrete inputs. -/
def pystr (s : String) : List Nat := s.toList.map Char.toNat

theorem collapseWs_mem (l : List Nat) : ∀ b c, c ∈ collapseWsAux b l →
    c = 45 ∨ (c ∈ l ∧ pyIsSpace c = false) := by
  induction l with
  | nil => intro b c h; simp [collapseWsAux] at h
  | cons x rest ih =>
    intro b c h
    unfold collapseWsAux at h
    by_cases hx : pyIsSpace x = true
    · rw [if_pos hx] at h
      have hrest : c = 45 ∨ c ∈ collapseWsAux true rest := by
        by_cases hb : b = true
        · rw [if_pos hb] at h; exact Or.inr h
        · rw [if_neg hb] at h; exact List.mem_cons.mp h
      rcases hrest with h45 | h3
      · exact Or.inl h45
      · rcases ih true c h3 with h45 | ⟨hm, hs⟩
        · exact Or.inl h45
        · exact Or.inr ⟨List.mem_cons_of_mem x hm, hs⟩
    · rw [if_neg hx] at h
      rcases List.mem_cons.mp h with hcx | h3
      · subst hcx
        exact Or.inr ⟨List.mem_cons_self _ _, Bool.eq_false_iff.mpr hx⟩
      · rcases ih false c h3 with h45 | ⟨hm, hs⟩
        · exact Or.inl h45
        · exact Or.inr ⟨List.mem_cons_of_mem x hm, hs⟩

theorem normalize_topic_key_chars (t : List Nat) :
    ∀ c ∈ normalize_topic_key t,
      (97 ≤ c ∧ c ≤ 122) ∨ (48 ≤ c ∧ c ≤ 57) ∨ c = 45 := by
  intro c hc
  unfold normalize_topic_key at hc
  have hc2 := List.take_subset _ _ hc
  rcases collapseWs_mem _ false c hc2 with h45 | ⟨hmem, hnsp⟩
  · right; right; exact h45
  · have hk := (List.mem_filter.mp hmem).2
    unfold keepChar isLowerAlnum pyIsSpace at hk
    unfold pyIsSpace at hnsp
    simp only [Bool.or_eq_true, decide_eq_true_eq] at hk
    simp only [decide_eq_false_iff_not] at hnsp
    omega

theorem dropWhile_eq_self_of_none (p : Nat → Bool) (l : List Nat)
    (h : ∀ c ∈ l, p c = false) : l.dropWhile p = l := by
  cases l with
  | nil => rfl
  | cons x rest =>
    rw [List.dropWhile_cons]
    simp [h x (by simp)]

theorem stripWs_eq_self (l : List Nat) (h : ∀ c ∈ l, pyIsSpace c = false) :
    stripWs l = l := by
  unfold stripWs
  rw [dropWhile_eq_self_of_none _ _ h]
  rw [dropWhile_eq_self_of_none _ _ (fun c hc => h c (List.mem_reverse.mp hc))]
  exact List.reverse_reverse l

theorem collapseWs_eq_self (l : List Nat) (h : ∀ c ∈ l, pyIsSpace c = false) :
    ∀ b, collapseWsAux b l = l := by
  induction l with
  | nil => intro b; rfl
  | cons x rest ih =>
    intro b
    unfold collapseWsAux
    have hx : pyIsSpace x = false := h x (by simp)
    simp only [hx, Bool.false_eq_true, if_false]
    rw [ih (fun c hc => h c (List.mem_cons_of_mem x hc)) false]

theorem map_pyLowerChar_eq_self (l : List Nat)
    (h : ∀ c ∈ l, (97 ≤ c ∧ c ≤ 122) ∨ (48 ≤ c ∧ c ≤ 57) ∨ c = 45) :
    l.map pyLowerChar = l := by
  induction l with
  | nil => rfl
  | cons x rest ih =>
    simp only [List.map_cons]
    have hx := h x (by simp)
    have hlx : pyLowerChar x = x := by unfold pyLowerChar; rw [if_neg (by omega)]
    rw [hlx, ih (fun c hc => h c (List.mem_cons_of_mem x hc))]

/-- C10: normalize_topic_key is idempotent, its output has length at most
100, and every output code point is a lowercase ASCII letter, a digit, or a
dash (whitespace runs become dashes, all other characters are removed). -/
theorem normalize_topic_key_spec (t : List Nat) :
    normalize_topic_key (normalize_topic_key t) = normalize_topic_key t
    ∧ (normalize_topic_key t).length ≤ 100
    ∧ (∀ c ∈ normalize_topic_key t,
        (97 ≤ c ∧ c ≤ 122) ∨ (48 ≤ c ∧ c ≤ 57) ∨ c = 45) := by
  have step : ∀ r : List Nat,
      (∀ c ∈ r, (97 ≤ c ∧ c ≤ 122) ∨ (48 ≤ c ∧ c ≤ 57) ∨ c = 45) →
      r.length ≤ 100 → normalize_topic_key r = r := by
    intro r hg hl
    have hns : ∀ c ∈ r, pyIsSpace c = false := by
      intro c hc
      have := hg c hc
      unfold pyIsSpace
      simp only [decide_eq_false_iff_not]
      omega
    have hkp : ∀ c ∈ r, keepChar c = true := by
      intro c hc
      have := hg c hc
      unfold keepChar isLowerAlnum pyIsSpace
      simp only [Bool.or_eq_true, decide_eq_true_eq]
      omega
    simp only [normalize_topic_key]
    rw [map_pyLowerChar_eq_self r hg, stripWs_eq_self r hns,
      List.filter_eq_self.mpr hkp, collapseWs_eq_self r hns false,
      List.take_of_length_le hl]
  have hlen : (normalize_topic_key t).length ≤ 100 := by
    simp only [normalize_topic_key]
    rw [List.length_take]
    exact min_le_left _ _
  exact ⟨step (normalize_topic_key t) (normalize_topic_key_chars t) hlen,
    hlen, normalize_topic_key_chars t⟩

/-- Closed check of C10 on a concrete title. -/
theorem normalize_topic_key_spec_witness :
    normalize_topic_key (normalize_topic_key (pystr "  AI Status Pages!  ")) =
      normalize_topic_key (pystr "  AI Status Pages!  ")
    ∧ (normalize_topic_key (pystr "  AI Status Pages!  ")).length ≤ 100
    ∧ normalize_topic_key (pystr "  AI Status Pages!  ") = pystr "ai-status-pages" :=
  ⟨(normalize_topic_key_spec (pystr "  AI Status Pages!  ")).1,
   (normalize_topic_key_spec (pystr "  AI Status Pages!  ")).2.1,
   by decide⟩

/-! ## Embedding of the topic reservation store (src/verdandi/orm.py lines
90-126 and src/verdandi/coordination.py lines 101-225)

Timestamps are ISO-8601 strings whose lexicographic order is chronological;
they are modelled as rationals. -/

/-- The status column of topic_reservations (orm.py check constraint). -/
inductive RStatus where
  | active
  | expired
  | released
  | completed
deriving DecidableEq

/-- TopicReservationRow (orm.py lines 90-126). -/
structure TopicReservationRow where
  id : Nat
  topic_key : String
  topic_description : String := ""
  niche_category : String := ""
  worker_id : String
  experiment_id : Option Nat := none
  reserved_at : ℚ
  expires_at : ℚ
  renewed_at : Option ℚ := none
  released_at : Option ℚ := none
  embedding_json : Option (List ℚ) := none
  fingerprint : Option String := none
  status : RStatus := .active
deriving DecidableEq

/-- An active reservation for the given topic key. -/
def isActiveFor (key : String) (r : TopicReservationRow) : Bool :=
  decide (r.topic_key = key ∧ r.status = RStatus.active)

/-- The UPDATE of expire_stale / the inline sweep of try_reserve: every
active reservation past its TTL becomes expired. -/
def expireSweep (now : ℚ) (db : List TopicReservationRow) :
    List TopicReservationRow :=
  db.map fun r =>
    if r.status = RStatus.active ∧ r.expires_at < now then
      { r with status := RStatus.expired }
    else r

/-- expire_stale (coordination.py lines 107-119): sweep and report the
number of rows expired. -/
def expire_stale (db : List TopicReservationRow) (now : ℚ) :
    List TopicReservationRow × Nat :=
  (expireSweep now db,
   db.countP fun r => decide (r.status = RStatus.active ∧ r.expires_at < now))

/-- The fresh active row inserted by a winning try_reserve (the id models
the autoincrement primary key; empty embedding lists serialize to NULL like
the truthiness check on the json.dumps argument). -/
def newReservationRow (freshId : Nat) (now : ℚ)
    (worker_id topic_key topic_description niche_category : String)
    (experiment_id : Option Nat) (embedding : Option (List ℚ))
    (fingerprint : Option String) (expires_at : ℚ) : TopicReservationRow where
  id := freshId
  topic_key := topic_key
  topic_description := topic_description
  niche_category := niche_category
  worker_id := worker_id
  experiment_id := experiment_id
  reserved_at := now
  expires_at := expires_at
  embedding_json :=
    match embedding with
    | some e => if e = [] then none else some e
    | none => none
  fingerprint := fingerprint
  status := RStatus.active

/-- try_reserve (coordination.py lines 121-180): under one exclusive write
transaction, sweep-expire stale rows, check for an active reservation with
the same key (rolling back everything and returning False on a hit), else
insert a fresh active row and commit. -/
def try_reserve (db : List TopicReservationRow) (now : ℚ)
    (worker_id topic_key topic_description niche_category : String)
    (experiment_id : Option Nat) (embedding : Option (List ℚ))
    (fingerprint : Option String) (ttl_hours : ℚ) :
    List TopicReservationRow × Bool :=
  let expires_at := now + ttl_hours
  let db1 := expireSweep now db
  if db1.any (isActiveFor topic_key) then (db, false)
  else
    (db1 ++
      [newReservationRow db1.length now worker_id topic_key topic_description
        niche_category experiment_id embedding fingerprint expires_at],
     true)

/-- release (coordination.py lines 182-201). -/
def releaseRes (db : List TopicReservationRow) (now : ℚ)
    (worker_id topic_key : String) (completed : Bool) :
    List TopicReservationRow × Bool :=
  let new_status := if completed then RStatus.completed else RStatus.released
  let hit := fun r : TopicReservationRow =>
    decide (r.topic_key = topic_key ∧ r.worker_id = worker_id
      ∧ r.status = RStatus.active)
  (db.map fun r =>
     if hit r then { r with status := new_status, released_at := some now } else r,
   db.countP hit = 1)

/-- renew (coordination.py lines 203-225): heartbeat extending the TTL. -/
def renewRes (db : List TopicReservationRow) (now : ℚ)
    (worker_id topic_key : String) (ttl_hours : ℚ) :
    List TopicReservationRow × Bool :=
  let hit := fun r : TopicReservationRow =>
    decide (r.topic_key = topic_key ∧ r.worker_id = worker_id
      ∧ r.status = RStatus.active)
  (db.map fun r =>
     if hit r then { r with expires_at := now + ttl_hours, renewed_at := some now }
     else r,
   db.countP hit = 1)

/-- One operation of the TopicReservationManager. -/
inductive ResOp where
  | tryReserve (now : ℚ) (worker topic desc cat : String) (eid : Option Nat)
      (emb : Option (List ℚ)) (fp : Option String) (ttl : ℚ)
  | release (now : ℚ) (worker topic : String) (completed : Bool)
  | renew (now : ℚ) (worker topic : String) (ttl : ℚ)
  | expireStale (now : ℚ)

/-- The state transition of one manager operation. -/
def applyResOp (db : List TopicReservationRow) : ResOp → List TopicReservationRow
  | .tryReserve now w t d c eid emb fp ttl =>
    (try_reserve db now w t d c eid emb fp ttl).1
  | .release now w t completed => (releaseRes db now w t completed).1
  | .renew now w t ttl => (renewRes db now w t ttl).1
  | .expireStale now => (expire_stale db now).1

/-- States of the reservation table reachable from the empty table through
manager operations. -/
inductive ResReachable : List TopicReservationRow → Prop where
  | init : ResReachable []
  | step {db : List TopicReservationRow} (op : ResOp) :
      ResReachable db → ResReachable (applyResOp db op)

/-- Number of rows that are active for the given topic key. -/
def activeCount (db : List TopicReservationRow) (key : String) : Nat :=
  db.countP (isActiveFor key)

theorem countP_map_le (f : TopicReservationRow → TopicReservationRow)
    (p : TopicReservationRow → Bool) (db : List TopicReservationRow)
    (h : ∀ r, p (f r) = true → p r = true) :
    (db.map f).countP p ≤ db.countP p := by
  induction db with
  | nil => simp
  | cons r rest ih =>
    simp only [List.map_cons, List.countP_cons]
    have hbranch : (if p (f r) = true then 1 else 0)
        ≤ (if p r = true then 1 else 0) := by
      by_cases hr : p (f r) = true
      · rw [if_pos hr, if_pos (h r hr)]
      · rw [if_neg hr]
        exact Nat.zero_le _
    exact Nat.add_le_add ih hbranch

theorem expireSweep_activeCount_le (now : ℚ) (db : List TopicReservationRow)
    (key : String) : activeCount (expireSweep now db) key ≤ activeCount db key := by
  apply countP_map_le
  intro r hr
  by_cases hc : r.status = RStatus.active ∧ r.expires_at < now
  · exfalso
    rw [if_pos hc] at hr
    simp [isActiveFor] at hr
  · rwa [if_neg hc] at hr

theorem map_guard_activeCount_le (g : TopicReservationRow → Bool)
    (f : TopicReservationRow → TopicReservationRow) (db : List TopicReservationRow)
    (key : String)
    (h : ∀ r, isActiveFor key (if g r then f r else r) = true →
      isActiveFor key r = true) :
    activeCount (db.map fun r => if g r then f r else r) key
      ≤ activeCount db key :=
  countP_map_le _ _ db h

theorem try_reserve_activeCount (db : List TopicReservationRow) (now : ℚ)
    (w t d c : String) (eid : Option Nat) (emb : Option (List ℚ))
    (fp : Option String) (ttl : ℚ) (key : String)
    (h : activeCount db key ≤ 1) :
    activeCount (try_reserve db now w t d c eid emb fp ttl).1 key ≤ 1 := by
  unfold try_reserve
  by_cases hany : (expireSweep now db).any (isActiveFor t) = true
  · simp only [hany, if_true]
    exact h
  · simp only [hany, Bool.false_eq_true, if_false]
    unfold activeCount
    rw [List.countP_append]
    have hsweep : activeCount (expireSweep now db) key ≤ activeCount db key :=
      expireSweep_activeCount_le now db key
    by_cases hkey : key = t
    · subst hkey
      have hzero : (expireSweep now db).countP (isActiveFor key) = 0 := by
        rw [List.countP_eq_zero]
        intro r hr
        intro hp
        exact hany (List.any_eq_true.mpr ⟨r, hr, hp⟩)
      rw [hzero, Nat.zero_add, List.countP_singleton]
      split <;> simp
    · have hrow : isActiveFor key
          (newReservationRow (expireSweep now db).length now w t d c eid emb fp
            (now + ttl)) = false := by
        simp only [isActiveFor, newReservationRow, decide_eq_false_iff_not]
        rintro ⟨hkc, _⟩
        exact hkey hkc.symm
      simp only [List.countP_cons, List.countP_nil, hrow]
      simp only [Bool.false_eq_true, if_false]
      unfold activeCount at hsweep h
      omega

theorem releaseRes_activeCount_le (db : List TopicReservationRow) (now : ℚ)
    (w t : String) (completed : Bool) (key : String) :
    activeCount (releaseRes db now w t completed).1 key ≤ activeCount db key := by
  unfold releaseRes
  apply countP_map_le
  intro r hr
  by_cases hhit : decide (r.topic_key = t ∧ r.worker_id = w
      ∧ r.status = RStatus.active) = true
  · exfalso
    rw [if_pos hhit] at hr
    cases completed <;> simp [isActiveFor] at hr
  · rwa [if_neg hhit] at hr

theorem renewRes_activeCount_le (db : List TopicReservationRow) (now : ℚ)
    (w t : String) (ttl : ℚ) (key : String) :
    activeCount (renewRes db now w t ttl).1 key ≤ activeCount db key := by
  unfold renewRes
  apply countP_map_le
  intro r hr
  by_cases hhit : decide (r.topic_key = t ∧ r.worker_id = w
      ∧ r.status = RStatus.active) = true
  · rw [if_pos hhit] at hr
    simpa [isActiveFor] using hr
  · rwa [if_neg hhit] at hr

theorem reachable_activeCount (db : List TopicReservationRow)
    (h : ResReachable db) : ∀ key, activeCount db key ≤ 1 := by
  induction h with
  | init => intro key; simp [activeCount]
  | step op hdb ih =>
    intro key
    cases op with
    | tryReserve now w t d c eid emb fp ttl =>
      exact try_reserve_activeCount _ now w t d c eid emb fp ttl key (ih key)
    | release now w t completed =>
      exact le_trans (releaseRes_activeCount_le _ now w t completed key) (ih key)
    | renew now w t ttl =>
      exact le_trans (renewRes_activeCount_le _ now w t ttl key) (ih key)
    | expireStale now =>
      exact le_trans (expireSweep_activeCount_le now _ key) (ih key)

/-- A sequence of try_reserve calls for one topic key, each given as
(call time, calling worker).  Returns the final table and the list of
returned booleans. -/
def tryReserveSeq (db : List TopicReservationRow) (topic : String) (ttl : ℚ) :
    List (ℚ × String) → List TopicReservationRow × List Bool
  | [] => (db, [])
  | (t, w) :: rest =>
    ((tryReserveSeq (try_reserve db t w topic "" "" none none none ttl).1
        topic ttl rest).1,
     (try_reserve db t w topic "" "" none none none ttl).2 ::
       (tryReserveSeq (try_reserve db t w topic "" "" none none none ttl).1
         topic ttl rest).2)

theorem try_reserve_blocked (db : List TopicReservationRow) (now : ℚ)
    (w t d c : String) (eid : Option Nat) (emb : Option (List ℚ))
    (fp : Option String) (ttl : ℚ) (r : TopicReservationRow)
    (hmem : r ∈ db) (hkey : r.topic_key = t) (hact : r.status = RStatus.active)
    (hexp : now ≤ r.expires_at) :
    try_reserve db now w t d c eid emb fp ttl = (db, false) := by
  have hfix : (if r.status = RStatus.active ∧ r.expires_at < now then
      { r with status := RStatus.expired } else r) = r := by
    rw [if_neg]
    rintro ⟨_, hlt⟩
    linarith
  have hmem2 : r ∈ expireSweep now db := by
    unfold expireSweep
    exact List.mem_map.mpr ⟨r, hmem, hfix⟩
  have hany : (expireSweep now db).any (isActiveFor t) = true :=
    List.any_eq_true.mpr ⟨r, hmem2, by simp [isActiveFor, hkey, hact]⟩
  unfold try_reserve
  simp only [hany, if_true]

theorem tryReserveSeq_all_blocked (topic : String) (ttl : ℚ)
    (calls : List (ℚ × String)) :
    ∀ db r, r ∈ db → r.topic_key = topic → r.status = RStatus.active →
      (∀ cl ∈ calls, cl.1 ≤ r.expires_at) →
      tryReserveSeq db topic ttl calls = (db, List.replicate calls.length false) := by
  induction calls with
  | nil => intro db r _ _ _ _; rfl
  | cons cl rest ih =>
    intro db r hmem hkey hact hbound
    obtain ⟨t, w⟩ := cl
    have hstep : try_reserve db t w topic "" "" none none none ttl = (db, false) :=
      try_reserve_blocked db t w topic "" "" none none none ttl r hmem hkey hact
        (hbound (t, w) (List.mem_cons_self _ _))
    unfold tryReserveSeq
    rw [hstep]
    rw [ih db r hmem hkey hact (fun c hc => hbound c (List.mem_cons_of_mem _ hc))]
    simp [List.replicate_succ]

theorem try_reserve_first_succeeds (db : List TopicReservationRow) (now : ℚ)
    (w t d c : String) (eid : Option Nat) (emb : Option (List ℚ))
    (fp : Option String) (ttl : ℚ)
    (hnone : ∀ r ∈ db, r.topic_key = t → r.status = RStatus.active →
      r.expires_at < now) :
    (try_reserve db now w t d c eid emb fp ttl).2 = true
    ∧ ∃ nr ∈ (try_reserve db now w t d c eid emb fp ttl).1,
        nr.topic_key = t ∧ nr.status = RStatus.active
        ∧ nr.expires_at = now + ttl := by
  have hany : (expireSweep now db).any (isActiveFor t) = false := by
    rw [Bool.eq_false_iff]
    intro habs
    obtain ⟨r2, hr2mem, hr2⟩ := List.any_eq_true.mp habs
    obtain ⟨r0, hr0mem, hr0eq⟩ := List.mem_map.mp hr2mem
    simp only [isActiveFor, decide_eq_true_eq] at hr2
    by_cases hc : r0.status = RStatus.active ∧ r0.expires_at < now
    · rw [if_pos hc] at hr0eq
      rw [← hr0eq] at hr2
      exact absurd hr2.2 (by simp)
    · rw [if_neg hc] at hr0eq
      subst hr0eq
      have := hnone r0 hr0mem hr2.1 hr2.2
      exact hc ⟨hr2.2, this⟩
  unfold try_reserve
  simp only [hany, Bool.false_eq_true, if_false]
  refine ⟨by trivial, ?_⟩
  refine ⟨newReservationRow (expireSweep now db).length now w t d c eid emb fp
    (now + ttl), ?_, rfl, rfl, rfl⟩
  simp

/-- C1: the at-most-one-active-reservation invariant.  First, at every state
of the reservation table reachable through manager operations there is at
most one active row per topic key.  Second, among N sequential try_reserve
calls for the same topic key — starting from a table whose active rows for
that key are all expired by the first call time, with every later call made
while the winning claim is still unexpired — the first call returns success
and all others return failure, i.e. exactly one success. -/
theorem at_most_one_active_reservation :
    (∀ db, ResReachable db → ∀ key, activeCount db key ≤ 1)
    ∧ (∀ (db : List TopicReservationRow) (topic : String) (ttl t1 : ℚ)
        (w1 : String) (rest : List (ℚ × String)),
        (∀ r ∈ db, r.topic_key = topic → r.status = RStatus.active →
          r.expires_at < t1) →
        (∀ cl ∈ rest, cl.1 ≤ t1 + ttl) →
        (tryReserveSeq db topic ttl ((t1, w1) :: rest)).2 =
          true :: List.replicate rest.length false
        ∧ ((tryReserveSeq db topic ttl ((t1, w1) :: rest)).2.count true = 1)) := by
  constructor
  · exact reachable_activeCount
  · intro db topic ttl t1 w1 rest hstale hwindow
    obtain ⟨hok, nr, hnrmem, hnrkey, hnract, hnrexp⟩ :=
      try_reserve_first_succeeds db t1 w1 topic "" "" none none none ttl hstale
    have hrest := tryReserveSeq_all_blocked topic ttl rest
      (try_reserve db t1 w1 topic "" "" none none none ttl).1 nr hnrmem hnrkey
      hnract (by rw [hnrexp]; exact hwindow)
    have hresult : (tryReserveSeq db topic ttl ((t1, w1) :: rest)).2 =
        true :: List.replicate rest.length false := by
      unfold tryReserveSeq
      rw [hrest, hok]
    refine ⟨hresult, ?_⟩
    rw [hresult]
    simp [List.count_cons, List.count_replicate]

/-- Closed check of C1: from the empty table, three try_reserve calls for
topic key widget-a at times 0, 1, 2 with a 24-hour TTL yield results
[true, false, false] — exactly one success; and the state reached by the
first call satisfies the at-most-one-active invariant. -/
theorem at_most_one_active_reservation_witness :
    ((tryReserveSeq [] "widget-a" 24 [(0, "w1"), (1, "w2"), (2, "w3")]).2 =
      [true, false, false]
    ∧ (tryReserveSeq [] "widget-a" 24 [(0, "w1"), (1, "w2"), (2, "w3")]).2.count
        true = 1)
    ∧ activeCount (applyResOp []
        (ResOp.tryReserve 0 "w1" "widget-a" "" "" none none none 24))
        "widget-a" ≤ 1 := by
  constructor
  · have h := at_most_one_active_reservation.2 [] "widget-a" 24 0 "w1"
      [(1, "w2"), (2, "w3")] (by intro r hr; simp at hr)
      (by intro cl hcl; rcases List.mem_cons.mp hcl with h1 | h1
          · rw [h1]; norm_num
          · rcases List.mem_cons.mp h1 with h2 | h2
            · rw [h2]; norm_num
            · simp at h2)
    simpa using h
  · exact at_most_one_active_reservation.1 _
      (ResReachable.step _ ResReachable.init) "widget-a"

/-! ## FindSimilarByFingerprint -/

/-- ReservationInfo (coordination.py lines 66-72). -/
structure ReservationInfo where
  id : Nat
  topic_key : String
  topic_description : String
  worker_id : String
  similarity : ℚ
deriving DecidableEq

/-- The ReservationInfo built from a row and its similarity score. -/
def rowInfo (r : TopicReservationRow) (sim : ℚ) : ReservationInfo where
  id := r.id
  topic_key := r.topic_key
  topic_description := r.topic_description
  worker_id := r.worker_id
  similarity := sim

/-- Descending order on similarity, the sort key -x.similarity. -/
def simDesc (a b : ReservationInfo) : Bool := decide (b.similarity ≤ a.similarity)

/-- The statuses requested by the discovery dedup pass
(orchestrator/runner.py line 486: both active and completed). -/
def dedupStatuses : List RStatus := [RStatus.active, RStatus.completed]

/-- Modelled from the spec: find_similar_by_fingerprint taking a statuses
argument is defined in verdandi/orchestrator/coordination.py, which is
absent from the source tree — only its callers (orchestrator/runner.py) and
its tests remain, and the older coordination.py overload lacks the
parameter.  Per the spec it is a linear scan of reservations restricted to
the requested statuses with a non-null fingerprint, Jaccard-scored against
the query fingerprint, keeping scores ≥ threshold, sorted descending by
similarity. -/
def find_similar_by_fingerprint (db : List TopicReservationRow)
    (fingerprint : String) (threshold : ℚ) (statuses : List RStatus) :
    List ReservationInfo :=
  (((db.filter fun r => decide (r.status ∈ statuses) && r.fingerprint.isSome).map
      fun r => rowInfo r (jaccard_similarity fingerprint (r.fingerprint.getD ""))).filter
    fun m => decide (threshold ≤ m.similarity)).mergeSort simDesc

theorem simDesc_trans (a b c : ReservationInfo) :
    simDesc a b → simDesc b c → simDesc a c := by
  simp only [simDesc, decide_eq_true_eq]
  intro h1 h2
  exact le_trans h2 h1

theorem simDesc_total (a b : ReservationInfo) : simDesc a b || simDesc b a := by
  simp only [simDesc, Bool.or_eq_true, decide_eq_true_eq]
  exact le_total _ _

/-- C6: find_similar_by_fingerprint restricts the scan to rows whose status
is among the requested statuses and whose fingerprint is non-null, and
returns exactly the ReservationInfos of the rows whose Jaccard similarity
to the query fingerprint is at least the threshold, sorted descending by
similarity. -/
theorem find_similar_by_fingerprint_spec (db : List TopicReservationRow)
    (fp : String) (threshold : ℚ) (statuses : List RStatus) :
    ((find_similar_by_fingerprint db fp threshold statuses).Pairwise
        fun a b => b.similarity ≤ a.similarity)
    ∧ (find_similar_by_fingerprint db fp threshold statuses).Perm
        ((db.filter fun r => decide (r.status ∈ statuses ∧ r.fingerprint ≠ none
            ∧ threshold ≤ jaccard_similarity fp (r.fingerprint.getD ""))).map
          fun r => rowInfo r (jaccard_similarity fp (r.fingerprint.getD "")))
    ∧ (∀ m ∈ find_similar_by_fingerprint db fp threshold statuses,
        threshold ≤ m.similarity) := by
  unfold find_similar_by_fingerprint
  refine ⟨?_, ?_, ?_⟩
  · have hs := List.sorted_mergeSort simDesc_trans simDesc_total
      (((db.filter fun r => decide (r.status ∈ statuses)
          && r.fingerprint.isSome).map fun r =>
        rowInfo r (jaccard_similarity fp (r.fingerprint.getD ""))).filter
        fun m => decide (threshold ≤ m.similarity))
    exact hs.imp fun h => by simpa [simDesc] using h
  · have hperm := List.mergeSort_perm
      (((db.filter fun r => decide (r.status ∈ statuses)
          && r.fingerprint.isSome).map fun r =>
        rowInfo r (jaccard_similarity fp (r.fingerprint.getD ""))).filter
        fun m => decide (threshold ≤ m.similarity)) simDesc
    refine hperm.trans ?_
    rw [List.filter_map, List.filter_filter]
    apply List.Perm.of_eq
    congr 1
    apply List.filter_congr
    intro r _
    rcases hfp : r.fingerprint with _ | f0
    · simp [Function.comp, rowInfo, hfp]
    · by_cases h1 : r.status ∈ statuses
      · by_cases h2 : threshold ≤ jaccard_similarity fp f0
        · simp [Function.comp, rowInfo, hfp, h1, h2]
        · simp [Function.comp, rowInfo, hfp, h1, h2]
      · simp [Function.comp, rowInfo, hfp, h1]
  · intro m hm
    have hm2 := List.mem_mergeSort.mp hm
    have := (List.mem_filter.mp hm2).2
    simpa using this

/-- An active reservation whose fingerprint equals the query fingerprint. -/
def demoRow : TopicReservationRow where
  id := 0
  topic_key := "ai-status-pages"
  worker_id := "w1"
  reserved_at := 0
  expires_at := 24
  fingerprint := some "a|b"
  status := RStatus.active

/-- Closed check of C6: scanning a one-row table with the row's own
fingerprint at threshold 0 returns exactly that row at similarity 1, and
the returned similarity honours the threshold bound of the theorem. -/
theorem find_similar_by_fingerprint_spec_witness :
    find_similar_by_fingerprint [demoRow] "a|b" 0 dedupStatuses =
      [rowInfo demoRow 1]
    ∧ (0 : ℚ) ≤ (rowInfo demoRow 1).similarity := by
  have hj : jaccard_similarity "a|b" "a|b" = 1 := jaccard_self "a|b" (by decide)
  have hres : find_similar_by_fingerprint [demoRow] "a|b" 0 dedupStatuses =
      [rowInfo demoRow 1] := by
    unfold find_similar_by_fingerprint
    rw [show ([demoRow].filter fun r =>
        decide (r.status ∈ dedupStatuses) && r.fingerprint.isSome) = [demoRow]
      from rfl]
    rw [show ([demoRow].map fun r =>
        rowInfo r (jaccard_similarity "a|b" (r.fingerprint.getD ""))) =
        [rowInfo demoRow (jaccard_similarity "a|b" "a|b")] from rfl]
    rw [hj]
    have h01 : ((0:ℚ) ≤ (1:ℚ)) := by norm_num
    simp [List.filter_cons, rowInfo, h01]
  refine ⟨hres, ?_⟩
  exact (find_similar_by_fingerprint_spec [demoRow] "a|b" 0 dedupStatuses).2.2
    (rowInfo demoRow 1) (by rw [hres]; exact List.mem_singleton.mpr rfl)

/-! ## Embedding of the step-result store (src/verdandi/orm.py lines 55-71
and src/verdandi/db/facade.py lines 152-181) -/

/-- StepResultRow (orm.py lines 55-71). -/
structure StepResultRow where
  id : Nat
  experiment_id : Nat
  step_name : String
  step_number : Nat
  data_json : String
  worker_id : String := ""
  created_at : ℚ := 0
deriving DecidableEq

/-- The upsert key predicate of uq_step_results_exp_step. -/
def stepKey (eid : Nat) (nm : String) (r : StepResultRow) : Bool :=
  decide (r.experiment_id = eid ∧ r.step_name = nm)

/-- uq_step_results_exp_step (orm.py line 69): at most one row per
(experiment_id, step_name). -/
def uq_step_results_exp_step (db : List StepResultRow) : Prop :=
  ∀ eid nm, db.countP (stepKey eid nm) ≤ 1

/-- The update half of the upsert: the first row matching
(experiment_id, step_name) gets its data_json and worker_id overwritten in
place; mirrors .first() plus attribute assignment plus commit. -/
def saveGo (experiment_id : Nat) (step_name data_json worker_id : String) :
    List StepResultRow → Option (List StepResultRow × Nat)
  | [] => none
  | r :: rest =>
    if r.experiment_id = experiment_id ∧ r.step_name = step_name then
      some ({ r with data_json := data_json, worker_id := worker_id } :: rest, r.id)
    else
      match saveGo experiment_id step_name data_json worker_id rest with
      | some (rest2, i) => some (r :: rest2, i)
      | none => none

/-- The fresh row appended by the insert half of the upsert (freshId models
the autoincrement primary key). -/
def newStepResultRow (freshId : Nat) (now : ℚ) (experiment_id : Nat)
    (step_name : String) (step_number : Nat) (data_json worker_id : String) :
    StepResultRow where
  id := freshId
  experiment_id := experiment_id
  step_name := step_name
  step_number := step_number
  data_json := data_json
  worker_id := worker_id
  created_at := now

/-- save_step_result (facade.py lines 152-181): update the existing row for
(experiment_id, step_name) in place, else insert a new row.  Returns the
table and the id of the written row. -/
def save_step_result (db : List StepResultRow) (freshId : Nat) (now : ℚ)
    (experiment_id : Nat) (step_name : String) (step_number : Nat)
    (data_json worker_id : String) : List StepResultRow × Nat :=
  match saveGo experiment_id step_name data_json worker_id db with
  | some (db2, i) => (db2, i)
  | none =>
    (db ++ [newStepResultRow freshId now experiment_id step_name step_number
      data_json worker_id], freshId)

theorem saveGo_none_iff (eid : Nat) (nm d w : String) :
    ∀ db : List StepResultRow,
      saveGo eid nm d w db = none ↔
        ∀ r ∈ db, ¬(r.experiment_id = eid ∧ r.step_name = nm) := by
  intro db
  induction db with
  | nil => simp [saveGo]
  | cons r rest ih =>
    unfold saveGo
    by_cases hr : r.experiment_id = eid ∧ r.step_name = nm
    · simp [hr]
    · rw [if_neg hr]
      constructor
      · intro hnone
        intro x hx
        rcases List.mem_cons.mp hx with hxr | hxm
        · rw [hxr]; exact hr
        · rcases hcase : saveGo eid nm d w rest with _ | p
          · exact (ih.mp hcase) x hxm
          · rw [hcase] at hnone; simp at hnone
      · intro hall
        have hnone : saveGo eid nm d w rest = none :=
          ih.mpr fun x hx => hall x (List.mem_cons_of_mem r hx)
        rw [hnone]

theorem saveGo_countP (eid : Nat) (nm d w : String) :
    ∀ (db db2 : List StepResultRow) (i : Nat),
      saveGo eid nm d w db = some (db2, i) →
      ∀ p : StepResultRow → Bool,
        (∀ r : StepResultRow, p { r with data_json := d, worker_id := w } = p r) →
        db2.countP p = db.countP p := by
  intro db
  induction db with
  | nil => intro db2 i h; simp [saveGo] at h
  | cons r rest ih =>
    intro db2 i h p hp
    unfold saveGo at h
    by_cases hr : r.experiment_id = eid ∧ r.step_name = nm
    · rw [if_pos hr] at h
      simp only [Option.some_inj, Prod.mk.injEq] at h
      rw [← h.1]
      simp only [List.countP_cons, hp r]
    · rw [if_neg hr] at h
      rcases hcase : saveGo eid nm d w rest with _ | ⟨rest2, i2⟩
      · rw [hcase] at h; simp at h
      · rw [hcase] at h
        simp only [Option.some_inj, Prod.mk.injEq] at h
        rw [← h.1]
        simp only [List.countP_cons]
        rw [ih rest2 i2 hcase p hp]

theorem saveGo_found (eid : Nat) (nm d w : String) :
    ∀ (pre : List StepResultRow) (r : StepResultRow)
      (post : List StepResultRow),
      (∀ x ∈ pre, ¬(x.experiment_id = eid ∧ x.step_name = nm)) →
      r.experiment_id = eid → r.step_name = nm →
      saveGo eid nm d w (pre ++ r :: post) =
        some (pre ++ { r with data_json := d, worker_id := w } :: post, r.id) := by
  intro pre
  induction pre with
  | nil =>
    intro r post _ hre hrn
    simp only [List.nil_append]
    unfold saveGo
    rw [if_pos ⟨hre, hrn⟩]
  | cons x rest ih =>
    intro r post hall hre hrn
    simp only [List.cons_append]
    unfold saveGo
    rw [if_neg (hall x (List.mem_cons_self _ _))]
    rw [ih r post (fun y hy => hall y (List.mem_cons_of_mem x hy)) hre hrn]

/-- C7: save_step_result keeps at most one StepResult row per
(experiment_id, step_name) — the uq_step_results_exp_step constraint is
preserved — and when a row for that key already exists (first match after
any non-matching prefix), the call overwrites that row in place (same id,
same position, same step_number and created_at, new payload and worker)
instead of inserting; when no row exists it appends exactly one new row. -/
theorem save_step_result_spec (freshId : Nat) (now : ℚ) (eid : Nat)
    (nm : String) (num : Nat) (d w : String) :
    (∀ db : List StepResultRow, uq_step_results_exp_step db →
      uq_step_results_exp_step (save_step_result db freshId now eid nm num d w).1)
    ∧ (∀ (pre : List StepResultRow) (r : StepResultRow)
        (post : List StepResultRow),
        (∀ x ∈ pre, ¬(x.experiment_id = eid ∧ x.step_name = nm)) →
        r.experiment_id = eid → r.step_name = nm →
        save_step_result (pre ++ r :: post) freshId now eid nm num d w =
          (pre ++ { r with data_json := d, worker_id := w } :: post, r.id))
    ∧ (∀ db : List StepResultRow,
        (∀ x ∈ db, ¬(x.experiment_id = eid ∧ x.step_name = nm)) →
        save_step_result db freshId now eid nm num d w =
          (db ++ [newStepResultRow freshId now eid nm num d w], freshId)) := by
  refine ⟨?_, ?_, ?_⟩
  · intro db huq
    unfold save_step_result
    rcases hcase : saveGo eid nm d w db with _ | ⟨db2, i⟩
    · intro keid knm
      rw [List.countP_append]
      have hnomatch := (saveGo_none_iff eid nm d w db).mp hcase
      by_cases hkey : keid = eid ∧ knm = nm
      · have hzero : db.countP (stepKey keid knm) = 0 := by
          rw [List.countP_eq_zero]
          intro r hr hp
          apply hnomatch r hr
          simp only [stepKey, decide_eq_true_eq] at hp
          exact ⟨hkey.1 ▸ hp.1, hkey.2 ▸ hp.2⟩
        rw [hzero, List.countP_singleton]
        split <;> simp
      · have hnew : stepKey keid knm
            (newStepResultRow freshId now eid nm num d w) = false := by
          simp only [stepKey, newStepResultRow, decide_eq_false_iff_not]
          rintro ⟨h1, h2⟩
          exact hkey ⟨h1.symm, h2.symm⟩
        rw [List.countP_singleton, hnew]
        simpa using huq keid knm
    · intro keid knm
      rw [saveGo_countP eid nm d w db db2 i hcase (stepKey keid knm)
        (fun r => rfl)]
      exact huq keid knm
  · intro pre r post hpre hre hrn
    unfold save_step_result
    rw [saveGo_found eid nm d w pre r post hpre hre hrn]
  · intro db hnone
    unfold save_step_result
    rw [(saveGo_none_iff eid nm d w db).mpr hnone]

/-- Closed check of C7: re-saving the scoring stage for experiment 1
overwrites the existing row in place (same id 5, new payload, no second
row), and the uniqueness constraint still holds afterwards. -/
theorem save_step_result_spec_witness :
    save_step_result
        [{ id := 5, experiment_id := 1, step_name := "scoring",
           step_number := 2, data_json := "old" }] 9 0 1 "scoring" 2 "new" "w2" =
      ([{ id := 5, experiment_id := 1, step_name := "scoring",
          step_number := 2, data_json := "new", worker_id := "w2" }], 5)
    ∧ uq_step_results_exp_step
        (save_step_result
          [{ id := 5, experiment_id := 1, step_name := "scoring",
             step_number := 2, data_json := "old" }] 9 0 1 "scoring" 2 "new" "w2").1 := by
  constructor
  · have h := (save_step_result_spec 9 0 1 "scoring" 2 "new" "w2").2.1 []
      { id := 5, experiment_id := 1, step_name := "scoring",
        step_number := 2, data_json := "old" } []
      (by intro x hx; simp at hx) rfl rfl
    simpa using h
  · apply (save_step_result_spec 9 0 1 "scoring" 2 "new" "w2").1
    intro keid knm
    rw [List.countP_singleton]
    split <;> simp

/-! ## Embedding of LongTermMemory similarity search and the novelty score
(src/verdandi/memory/long_term.py lines 179-267, orchestrator use at
src/verdandi/orchestrator.py lines 393-396)

The Qdrant collaborator is modelled by the points it would score against
the query embedding: each stored idea appears with its payload status and
its cosine similarity to the query; an unreachable or failing index is the
error case. -/

/-- One stored idea as scored against the query embedding. -/
structure ScoredPoint where
  topic_key : String
  status : String
  similarity : ℚ
deriving DecidableEq

/-- The status filter plus score threshold applied by query_points. -/
def eligPred (statusFilter : Option (List String)) (threshold : ℚ)
    (p : ScoredPoint) : Bool :=
  (match statusFilter with
   | some fs => decide (p.status ∈ fs)
   | none => true)
  && decide (threshold ≤ p.similarity)

/-- Descending order on the similarity score. -/
def scoreDesc (a b : ScoredPoint) : Bool := decide (b.similarity ≤ a.similarity)

/-- The Qdrant query_points call (long_term.py lines 218-224): status
filter, score_threshold, order by score descending, truncate to limit. -/
def query_points (points : List ScoredPoint)
    (statusFilter : Option (List String)) (threshold : ℚ) (limit : Nat) :
    List ScoredPoint :=
  ((points.filter (eligPred statusFilter threshold)).mergeSort scoreDesc).take limit

/-- find_similar_ideas (long_term.py lines 179-241): delegate to the vector
index; any client error degrades to the empty result instead of raising. -/
def find_similar_ideas (mem : Except Unit (List ScoredPoint)) (threshold : ℚ)
    (limit : Nat) (statusFilter : Option (List String)) : List ScoredPoint :=
  match mem with
  | .error _ => []
  | .ok points => query_points points statusFilter threshold limit

/-- compute_novelty_score (long_term.py lines 243-267): search with
threshold 0 and limit 1 for the closest match; 1.0 when nothing is found
or on error, else max(0, 1 - similarity). -/
def compute_novelty_score (mem : Except Unit (List ScoredPoint))
    (statusFilter : Option (List String)) : ℚ :=
  match find_similar_ideas mem 0 1 statusFilter with
  | [] => 1
  | p :: _ => max 0 (1 - p.similarity)

/-- The novelty computation of _discover_unique_idea: 1.0 by default, and
computed against active+completed prior ideas only when an embedding
provider is available and an embedding was produced. -/
def noveltyForIdea (embedderAvailable : Bool) (embedding : List ℚ)
    (mem : Except Unit (List ScoredPoint)) : ℚ :=
  if embedderAvailable = true ∧ embedding ≠ [] then
    compute_novelty_score mem (some ["active", "completed"])
  else 1

theorem scoreDesc_trans (a b c : ScoredPoint) :
    scoreDesc a b → scoreDesc b c → scoreDesc a c := by
  simp only [scoreDesc, decide_eq_true_eq]
  intro h1 h2
  exact le_trans h2 h1

theorem scoreDesc_total (a b : ScoredPoint) : scoreDesc a b || scoreDesc b a := by
  simp only [scoreDesc, Bool.or_eq_true, decide_eq_true_eq]
  exact le_total _ _

theorem query_points_limit_one (points : List ScoredPoint)
    (sf : Option (List String)) (threshold : ℚ)
    (hne : points.filter (eligPred sf threshold) ≠ []) :
    ∃ m, query_points points sf threshold 1 = [m]
      ∧ m ∈ points.filter (eligPred sf threshold)
      ∧ ∀ q ∈ points.filter (eligPred sf threshold),
          q.similarity ≤ m.similarity := by
  have hperm := List.mergeSort_perm (points.filter (eligPred sf threshold)) scoreDesc
  have hsorted := List.sorted_mergeSort scoreDesc_trans scoreDesc_total
    (points.filter (eligPred sf threshold))
  rcases hs : (points.filter (eligPred sf threshold)).mergeSort scoreDesc with
    _ | ⟨m, rest⟩
  · exfalso
    exact hne (List.eq_nil_of_length_eq_zero (by
      have := hperm.length_eq
      rw [hs] at this
      simpa using this.symm))
  · refine ⟨m, ?_, ?_, ?_⟩
    · unfold query_points
      rw [hs]
      rfl
    · exact hperm.mem_iff.mp (hs ▸ List.mem_cons_self m rest)
    · intro q hq
      have hq2 : q ∈ m :: rest := hs ▸ (List.mem_mergeSort.mpr hq)
      rcases List.mem_cons.mp hq2 with hqm | hqr
      · rw [hqm]
      · rw [hs] at hsorted
        have := (List.pairwise_cons.mp hsorted).1 q hqr
        simpa [scoreDesc] using this

/-- C8: compute_novelty_score returns 1 minus the best cosine similarity
among prior ideas passing the status filter, clamped to [0, 1]; it returns
1.0 when no prior ideas exist, 1.0 when the vector memory is unavailable or
errors (degrading instead of raising), and the discovery loop keeps the
neutral 1.0 when no embedder or no embedding is available. -/
theorem compute_novelty_score_spec :
    (∀ sf, compute_novelty_score (.error ()) sf = 1)
    ∧ (∀ sf, compute_novelty_score (.ok []) sf = 1)
    ∧ (∀ emb mem, noveltyForIdea false emb mem = 1)
    ∧ (∀ avail mem, noveltyForIdea avail [] mem = 1)
    ∧ (∀ avail emb mem, avail = true → emb ≠ [] →
        noveltyForIdea avail emb mem =
          compute_novelty_score mem (some ["active", "completed"]))
    ∧ (∀ mem sf, 0 ≤ compute_novelty_score mem sf
        ∧ compute_novelty_score mem sf ≤ 1)
    ∧ (∀ points sf, points.filter (eligPred sf 0) ≠ [] →
        ∃ m, m ∈ points.filter (eligPred sf 0)
          ∧ (∀ q ∈ points.filter (eligPred sf 0),
              q.similarity ≤ m.similarity)
          ∧ compute_novelty_score (.ok points) sf = max 0 (1 - m.similarity)) := by
  refine ⟨fun sf => rfl,
    fun sf => by simp [compute_novelty_score, find_similar_ideas, query_points],
    ?_, ?_, ?_, ?_, ?_⟩
  · intro emb mem
    unfold noveltyForIdea
    rw [if_neg]
    rintro ⟨h, _⟩
    exact Bool.false_ne_true h
  · intro avail mem
    unfold noveltyForIdea
    rw [if_neg]
    rintro ⟨_, h⟩
    exact h rfl
  · intro avail emb mem ha he
    unfold noveltyForIdea
    rw [if_pos ⟨ha, he⟩]
  · intro mem sf
    rcases mem with _ | points
    · constructor <;> norm_num [compute_novelty_score, find_similar_ideas]
    · have hrw : compute_novelty_score (Except.ok points) sf =
          match query_points points sf 0 1 with
          | [] => (1:ℚ)
          | p :: _ => max 0 (1 - p.similarity) := rfl
      rcases hq : query_points points sf 0 1 with _ | ⟨p, rest⟩
      · rw [hrw, hq]
        constructor <;> norm_num
      · rw [hrw, hq]
        have hp : p ∈ points.filter (eligPred sf 0) := by
          have hp1 : p ∈ query_points points sf 0 1 := by
            rw [hq]; exact List.mem_cons_self _ _
          unfold query_points at hp1
          exact List.mem_mergeSort.mp (List.take_subset _ _ hp1)
        have hp0 : (0:ℚ) ≤ p.similarity := by
          have := (List.mem_filter.mp hp).2
          simp only [eligPred, Bool.and_eq_true, decide_eq_true_eq] at this
          exact this.2
        constructor
        · exact le_max_left _ _
        · apply max_le (by norm_num)
          linarith
  · intro points sf hne
    obtain ⟨m, hq, hmem, hmax⟩ := query_points_limit_one points sf 0 hne
    refine ⟨m, hmem, hmax, ?_⟩
    have hrw : compute_novelty_score (Except.ok points) sf =
        match query_points points sf 0 1 with
        | [] => (1:ℚ)
        | p :: _ => max 0 (1 - p.similarity) := rfl
    rw [hrw, hq]

/-- A prior active idea at cosine similarity 1 to the query embedding. -/
def demoPoint : ScoredPoint where
  topic_key := "prior"
  status := "active"
  similarity := 1

/-- Closed check of C8: one active prior idea at cosine similarity 1 gives
novelty 0; an erroring vector memory gives the neutral 1; and the discovery
loop without an embedder keeps novelty 1. -/
theorem compute_novelty_score_spec_witness :
    compute_novelty_score (.ok [demoPoint]) (some ["active", "completed"]) = 0
    ∧ compute_novelty_score (.error ()) (some ["active", "completed"]) = 1
    ∧ noveltyForIdea false [1] (.ok []) = 1 := by
  refine ⟨?_, compute_novelty_score_spec.1 (some ["active", "completed"]),
    compute_novelty_score_spec.2.2.1 [1] (.ok [])⟩
  have hfil : ([demoPoint] : List ScoredPoint).filter
      (eligPred (some ["active", "completed"]) 0) = [demoPoint] := by
    rw [List.filter_cons]
    norm_num [eligPred, demoPoint]
  have hne : ([demoPoint] : List ScoredPoint).filter
      (eligPred (some ["active", "completed"]) 0) ≠ [] := by
    rw [hfil]
    simp
  obtain ⟨m, hmem, _, heq⟩ := compute_novelty_score_spec.2.2.2.2.2.2
    [demoPoint] (some ["active", "completed"]) hne
  have hm : m = demoPoint := by
    rw [hfil] at hmem
    simpa using hmem
  rw [heq, hm]
  norm_num [demoPoint]

/-! ## Embedding of the pipeline orchestrator
(src/verdandi/orchestrator/runner.py lines 77-287; the checkpoint logic is
identical in the flat src/verdandi/orchestrator.py lines 46-118, and the
default is_complete comes from the step base class) -/

/-- ExperimentStatus (models/experiment.py lines 11-20). -/
inductive ExperimentStatus where
  | pending
  | running
  | awaiting_review
  | approved
  | rejected
  | completed
  | failed
  | archived
  | no_go
deriving DecidableEq

/-- Experiment (models/experiment.py; the fields the orchestrator uses). -/
structure Experiment where
  id : Nat
  idea_title : String := ""
  idea_summary : String := ""
  status : ExperimentStatus := .pending
  current_step : Nat := 0
  worker_id : String := ""
deriving DecidableEq

/-- PipelineLogRow (orm.py lines 74-87). -/
structure PipelineLogRow where
  experiment_id : Option Nat
  step_name : String
  event : String
  message : String := ""
  worker_id : String := ""
deriving DecidableEq

/-- The durable store: experiments, step results, the append-only event
log, and the next autoincrement id for step results. -/
structure DB where
  experiments : List Experiment
  step_results : List StepResultRow
  log : List PipelineLogRow
  next_result_id : Nat := 0
deriving DecidableEq

/-- get_experiment (facade.py lines 93-98). -/
def get_experiment (db : DB) (eid : Nat) : Option Experiment :=
  db.experiments.find? fun e => decide (e.id = eid)

/-- The row mutation of update_experiment_status: only the fields passed as
some are overwritten. -/
def applyStatusUpdate (status : ExperimentStatus) (current_step : Option Nat)
    (worker_id : Option String) (e : Experiment) : Experiment :=
  { e with status := status,
           current_step := current_step.getD e.current_step,
           worker_id := worker_id.getD e.worker_id }

/-- update_experiment_status (facade.py lines 108-125). -/
def update_experiment_status (db : DB) (eid : Nat) (status : ExperimentStatus)
    (current_step : Option Nat) (worker_id : Option String) : DB :=
  { db with
    experiments := db.experiments.map fun e =>
      if e.id = eid then applyStatusUpdate status current_step worker_id e
      else e }

/-- One appended pipeline_log row. -/
def mkLogRow (event message : String) (eid : Option Nat)
    (step_name worker_id : String) : PipelineLogRow where
  experiment_id := eid
  step_name := step_name
  event := event
  message := message
  worker_id := worker_id

/-- log_event (facade.py lines 206-223): append-only. -/
def log_event (db : DB) (event message : String) (eid : Option Nat)
    (step_name worker_id : String) : DB :=
  { db with log := db.log ++ [mkLogRow event message eid step_name worker_id] }

/-- save_step_result at the store level (upsert of C7 plus the
autoincrement id bump; created_at not tracked by the orchestrator). -/
def db_save_step_result (db : DB) (eid : Nat) (nm : String) (num : Nat)
    (data worker : String) : DB :=
  { db with
    step_results :=
      (save_step_result db.step_results db.next_result_id 0 eid nm num data worker).1,
    next_result_id := db.next_result_id + 1 }

/-- get_step_result (facade.py lines 183-192): first row for the key. -/
def db_get_step_result (db : DB) (eid : Nat) (nm : String) :
    Option StepResultRow :=
  db.step_results.find? (stepKey eid nm)

/-- One registered pipeline step.  Steps are polymorphic: the conditional
skip hook may inspect the experiment, and the default is_complete (a
persisted StepResult exists for this experiment and step name, steps/base.py
lines 44-47) is applied by the loop itself. -/
structure Step where
  name : String
  shouldSkip : Experiment → Bool := fun _ => false

/-- The collaborators of one run_experiment invocation: the registry sorted
by stage number, the outcome of the circuit-breaker+retry-wrapped Step.run
per stage number (its result serialized to data_json, or the raised error
after retries), the JSON field accessors for the out-of-scope payloads
(decision / approved / skipped), the worker id and the dry-run flag. -/
structure RunEnv where
  steps : List (Nat × Step)
  runOutcome : Nat → Outcome String Unit
  parseDecision : String → Option String
  parseApproved : String → Bool
  parseSkipped : String → Bool
  worker_id : String := ""
  dry_run : Bool := false

/-- How one run_experiment invocation returned. -/
inductive RunExit where
  | notFound
  | terminalNoop
  | reviewBlocked
  | stepFailed
  | vanished
  | noGo
  | awaitingReview
  | stoppedAfter
  | completedAll
deriving DecidableEq

/-- The scoring gate test (runner.py lines 227-231): the persisted scoring
result exists and its decision field is no_go. -/
def scoringNoGo (env : RunEnv) (db : DB) (eid : Nat) : Bool :=
  match db_get_step_result db eid "scoring" with
  | none => false
  | some r => decide (env.parseDecision r.data_json = some "no_go")

/-- The step_start log write preceding a stage execution. -/
def dbStepStart (env : RunEnv) (eid : Nat) (step : Step) (db : DB) : DB :=
  log_event db "step_start" ("Running step " ++ step.name) (some eid)
    step.name env.worker_id

/-- The store after a stage execution failed (runner.py lines 186-200):
step_error event, then status failed with current_step at this stage. -/
def dbStepError (env : RunEnv) (eid step_num : Nat) (step : Step) (db : DB) :
    DB :=
  update_experiment_status
    (log_event (dbStepStart env eid step db) "step_error" "" (some eid)
      step.name env.worker_id)
    eid .failed (some step_num) none

/-- The store after a stage execution succeeded (runner.py lines 202-219):
upserted StepResult, status running with the new checkpoint, and a
step_complete event. -/
def dbStepDone (env : RunEnv) (eid step_num : Nat) (step : Step)
    (data : String) (db : DB) : DB :=
  log_event
    (update_experiment_status
      (db_save_step_result (dbStepStart env eid step db) eid step.name
        step_num data env.worker_id)
      eid .running (some step_num) none)
    "step_complete" ("Step " ++ step.name ++ " completed") (some eid)
    step.name env.worker_id

/-- The tail of one successful loop iteration (runner.py lines 221-276):
reload the experiment, then the scoring gate, the human-review gate and
the stop_after gate; `cont` continues the loop with the reloaded
experiment. -/
def gatesResult (env : RunEnv) (eid : Nat) (stop_after : Option Nat)
    (step_num : Nat) (step : Step) (data : String) (db4 : DB)
    (cont : Experiment → DB × List (Nat × String) × RunExit) :
    DB × List (Nat × String) × RunExit :=
  match get_experiment db4 eid with
  | none => (db4, [(step_num, step.name)], .vanished)
  | some expNew =>
    if step.name = "scoring" ∧ scoringNoGo env db4 eid then
      (log_event
        (update_experiment_status db4 eid .no_go (some step_num) none)
        "pipeline_nogo" "Pre-build score below threshold" (some eid) ""
        env.worker_id,
       [(step_num, step.name)], .noGo)
    else if step.name = "human_review"
        ∧ env.parseApproved data = false
        ∧ env.parseSkipped data = false then
      (update_experiment_status db4 eid .awaiting_review (some step_num) none,
       [(step_num, step.name)], .awaitingReview)
    else
      match stop_after with
      | some sa =>
        if sa ≤ step_num then
          (log_event db4 "pipeline_stopped" "" (some eid) "" env.worker_id,
           [(step_num, step.name)], .stoppedAfter)
        else
          ((cont expNew).1, (step_num, step.name) :: (cont expNew).2.1,
           (cont expNew).2.2)
      | none =>
        ((cont expNew).1, (step_num, step.name) :: (cont expNew).2.1,
         (cont expNew).2.2)

/-- The per-stage loop of run_experiment (runner.py lines 125-287),
returning the final store, the executed stages as (number, name) pairs in
execution order, and how the run returned. -/
def runLoop (env : RunEnv) (eid : Nat) (stop_after : Option Nat)
    (start_from : Nat) : List (Nat × Step) → Experiment → DB →
    DB × List (Nat × String) × RunExit
  | [], _, db =>
    (log_event (update_experiment_status db eid .completed none none)
      "pipeline_complete" "All steps completed" (some eid) "" env.worker_id,
     [], .completedAll)
  | (step_num, step) :: rest, exp, db =>
    if step_num < start_from then
      runLoop env eid stop_after start_from rest exp db
    else if step_num = 0 then
      runLoop env eid stop_after start_from rest exp db
    else if (db_get_step_result db eid step.name).isSome then
      runLoop env eid stop_after start_from rest exp db
    else if step.shouldSkip exp then
      runLoop env eid stop_after start_from rest exp db
    else
      match env.runOutcome step_num with
      | .err _ =>
        (dbStepError env eid step_num step db,
         [(step_num, step.name)], .stepFailed)
      | .ok data =>
        gatesResult env eid stop_after step_num step data
          (dbStepDone env eid step_num step data db)
          (fun expNew => runLoop env eid stop_after start_from rest expNew
            (dbStepDone env eid step_num step data db))

/-- run_experiment (runner.py lines 77-287). -/
def run_experiment (env : RunEnv) (db : DB) (eid : Nat)
    (stop_after : Option Nat) : DB × List (Nat × String) × RunExit :=
  match get_experiment db eid with
  | none => (db, [], .notFound)
  | some exp =>
    if exp.status = .completed ∨ exp.status = .archived
        ∨ exp.status = .rejected then
      (db, [], .terminalNoop)
    else if exp.status = .awaiting_review ∧ env.dry_run = false then
      (db, [], .reviewBlocked)
    else
      runLoop env eid stop_after
        (if 0 < exp.current_step then max exp.current_step 1 else 1)
        env.steps exp
        (log_event
          (update_experiment_status db eid .running none (some env.worker_id))
          "pipeline_start" "" (some eid) "" env.worker_id)

@[simp] theorem step_results_log_event (db : DB) (e m : String) (i : Option Nat)
    (s w : String) : (log_event db e m i s w).step_results = db.step_results := rfl

@[simp] theorem step_results_update_status (db : DB) (eid : Nat)
    (st : ExperimentStatus) (cs : Option Nat) (w : Option String) :
    (update_experiment_status db eid st cs w).step_results = db.step_results := rfl

@[simp] theorem log_update_status (db : DB) (eid : Nat)
    (st : ExperimentStatus) (cs : Option Nat) (w : Option String) :
    (update_experiment_status db eid st cs w).log = db.log := rfl

@[simp] theorem log_save (db : DB) (eid : Nat) (nm : String) (num : Nat)
    (d w : String) : (db_save_step_result db eid nm num d w).log = db.log := rfl

@[simp] theorem log_log_event (db : DB) (e m : String) (i : Option Nat)
    (s w : String) :
    (log_event db e m i s w).log = db.log ++ [mkLogRow e m i s w] := rfl

@[simp] theorem step_results_save (db : DB) (eid : Nat) (nm : String)
    (num : Nat) (d w : String) :
    (db_save_step_result db eid nm num d w).step_results =
      (save_step_result db.step_results db.next_result_id 0 eid nm num d w).1 := rfl

@[simp] theorem get_experiment_log_event (db : DB) (e m : String)
    (i : Option Nat) (s w : String) (eid : Nat) :
    get_experiment (log_event db e m i s w) eid = get_experiment db eid := rfl

@[simp] theorem get_experiment_save (db : DB) (eid2 : Nat) (nm : String)
    (num : Nat) (d w : String) (eid : Nat) :
    get_experiment (db_save_step_result db eid2 nm num d w) eid =
      get_experiment db eid := rfl

@[simp] theorem db_get_log_event (db : DB) (e m : String) (i : Option Nat)
    (s w : String) (eid : Nat) (nm : String) :
    db_get_step_result (log_event db e m i s w) eid nm =
      db_get_step_result db eid nm := rfl

@[simp] theorem db_get_update_status (db : DB) (eid2 : Nat)
    (st : ExperimentStatus) (cs : Option Nat) (w : Option String)
    (eid : Nat) (nm : String) :
    db_get_step_result (update_experiment_status db eid2 st cs w) eid nm =
      db_get_step_result db eid nm := rfl

theorem db_get_isSome_iff (db : DB) (eid : Nat) (nm : String) :
    (db_get_step_result db eid nm).isSome = true ↔
      0 < db.step_results.countP (stepKey eid nm) := by
  unfold db_get_step_result
  rw [List.find?_isSome, List.countP_pos_iff]

theorem save_countP_le (rows : List StepResultRow) (fid : Nat) (now : ℚ)
    (eid2 : Nat) (nm2 : String) (num : Nat) (d w : String)
    (p : StepResultRow → Bool)
    (hp : ∀ r : StepResultRow, p { r with data_json := d, worker_id := w } = p r) :
    rows.countP p ≤ ((save_step_result rows fid now eid2 nm2 num d w).1).countP p := by
  unfold save_step_result
  rcases hcase : saveGo eid2 nm2 d w rows with _ | ⟨rows2, i⟩
  · simp only [List.countP_append]
    omega
  · rw [saveGo_countP eid2 nm2 d w rows rows2 i hcase p hp]

theorem db_get_isSome_save (db : DB) (eid2 : Nat) (nm2 : String) (num : Nat)
    (d w : String) (eid : Nat) (nm : String)
    (h : (db_get_step_result db eid nm).isSome = true) :
    (db_get_step_result (db_save_step_result db eid2 nm2 num d w) eid nm).isSome
      = true := by
  rw [db_get_isSome_iff] at h ⊢
  rw [step_results_save]
  exact lt_of_lt_of_le h (save_countP_le db.step_results db.next_result_id 0
    eid2 nm2 num d w (stepKey eid nm) (fun r => rfl))

theorem db_get_isSome_dbStepDone (env : RunEnv) (eid2 step_num : Nat)
    (step : Step) (data : String) (db : DB) (eid : Nat) (nm : String)
    (h : (db_get_step_result db eid nm).isSome = true) :
    (db_get_step_result (dbStepDone env eid2 step_num step data db) eid nm).isSome
      = true := by
  unfold dbStepDone dbStepStart
  rw [db_get_log_event, db_get_update_status]
  exact db_get_isSome_save _ eid2 step.name step_num data env.worker_id eid nm
    (by rw [db_get_log_event]; exact h)

theorem saveGo_filter_other (eid : Nat) (nm d w : String)
    (q : StepResultRow → Bool)
    (hq : ∀ r : StepResultRow, r.step_name = nm → q r = false) :
    ∀ rows rows2 i, saveGo eid nm d w rows = some (rows2, i) →
      rows2.filter q = rows.filter q := by
  intro rows
  induction rows with
  | nil => intro rows2 i h; simp [saveGo] at h
  | cons r rest ih =>
    intro rows2 i h
    unfold saveGo at h
    by_cases hr : r.experiment_id = eid ∧ r.step_name = nm
    · rw [if_pos hr] at h
      simp only [Option.some_inj, Prod.mk.injEq] at h
      rw [← h.1]
      have hqr : q r = false := hq r hr.2
      have hqr2 : q { r with data_json := d, worker_id := w } = false :=
        hq _ hr.2
      simp only [List.filter_cons, hqr, hqr2]
      simp
    · rw [if_neg hr] at h
      rcases hcase : saveGo eid nm d w rest with _ | ⟨rest2, i2⟩
      · rw [hcase] at h; simp at h
      · rw [hcase] at h
        simp only [Option.some_inj, Prod.mk.injEq] at h
        rw [← h.1]
        simp only [List.filter_cons]
        rw [ih rest2 i2 hcase]

theorem save_filter_other (rows : List StepResultRow) (fid : Nat) (now : ℚ)
    (eid : Nat) (nm : String) (num : Nat) (d w : String)
    (q : StepResultRow → Bool)
    (hq : ∀ r : StepResultRow, r.step_name = nm → q r = false) :
    ((save_step_result rows fid now eid nm num d w).1).filter q =
      rows.filter q := by
  unfold save_step_result
  rcases hcase : saveGo eid nm d w rows with _ | ⟨rows2, i⟩
  · simp only [List.filter_append]
    have : (newStepResultRow fid now eid nm num d w).step_name = nm := rfl
    rw [show List.filter q [newStepResultRow fid now eid nm num d w] = []
      from by simp [List.filter_cons, hq _ this]]
    simp
  · exact saveGo_filter_other eid nm d w q hq rows rows2 i hcase

/-- The rows persisted for one experiment and stage name. -/
def rowsFor (db : DB) (eid : Nat) (nm : String) : List StepResultRow :=
  db.step_results.filter (stepKey eid nm)

/-- The step_complete events recorded for one experiment and stage name. -/
def isCompleteEvent (eid : Nat) (nm : String) (l : PipelineLogRow) : Bool :=
  decide (l.event = "step_complete" ∧ l.experiment_id = some eid
    ∧ l.step_name = nm)

def completeCount (db : DB) (eid : Nat) (nm : String) : Nat :=
  db.log.countP (isCompleteEvent eid nm)

theorem completeCount_log_event (db : DB) (ev msg : String) (i : Option Nat)
    (s w : String) (eid : Nat) (nm : String)
    (h : isCompleteEvent eid nm (mkLogRow ev msg i s w) = false) :
    completeCount (log_event db ev msg i s w) eid nm =
      completeCount db eid nm := by
  unfold completeCount
  rw [log_log_event, List.countP_append, List.countP_singleton, h]
  simp

theorem rowsFor_dbStepError (env : RunEnv) (eid2 step_num : Nat) (step : Step)
    (db : DB) (eid : Nat) (nm : String) :
    rowsFor (dbStepError env eid2 step_num step db) eid nm =
      rowsFor db eid nm := rfl

@[simp] theorem completeCount_update_status (db : DB) (eid2 : Nat)
    (st : ExperimentStatus) (cs : Option Nat) (w : Option String)
    (eid : Nat) (nm : String) :
    completeCount (update_experiment_status db eid2 st cs w) eid nm =
      completeCount db eid nm := rfl

@[simp] theorem completeCount_save (db : DB) (eid2 : Nat) (nm2 : String)
    (num : Nat) (d w : String) (eid : Nat) (nm : String) :
    completeCount (db_save_step_result db eid2 nm2 num d w) eid nm =
      completeCount db eid nm := rfl

theorem completeCount_dbStepError (env : RunEnv) (eid2 step_num : Nat)
    (step : Step) (db : DB) (eid : Nat) (nm : String) :
    completeCount (dbStepError env eid2 step_num step db) eid nm =
      completeCount db eid nm := by
  unfold dbStepError dbStepStart
  rw [completeCount_update_status]
  rw [completeCount_log_event _ _ _ _ _ _ _ _
    (by simp [isCompleteEvent, mkLogRow])]
  rw [completeCount_log_event _ _ _ _ _ _ _ _
    (by simp [isCompleteEvent, mkLogRow])]

theorem rowsFor_dbStepDone_other (env : RunEnv) (eid2 step_num : Nat)
    (step : Step) (data : String) (db : DB) (eid : Nat) (nm : String)
    (hnm : step.name ≠ nm) :
    rowsFor (dbStepDone env eid2 step_num step data db) eid nm =
      rowsFor db eid nm := by
  unfold rowsFor dbStepDone dbStepStart
  rw [step_results_log_event, step_results_update_status, step_results_save,
    step_results_log_event]
  exact save_filter_other db.step_results db.next_result_id 0 eid2 step.name
    step_num data env.worker_id (stepKey eid nm)
    (fun r hr => by
      simp only [stepKey, decide_eq_false_iff_not]
      rintro ⟨_, h2⟩
      exact hnm (hr ▸ h2))

theorem completeCount_dbStepDone_other (env : RunEnv) (eid2 step_num : Nat)
    (step : Step) (data : String) (db : DB) (eid : Nat) (nm : String)
    (hnm : step.name ≠ nm) :
    completeCount (dbStepDone env eid2 step_num step data db) eid nm =
      completeCount db eid nm := by
  unfold dbStepDone dbStepStart
  rw [completeCount_log_event _ _ _ _ _ _ _ _
    (by simp only [isCompleteEvent, mkLogRow, decide_eq_false_iff_not]
        rintro ⟨_, _, h3⟩
        exact hnm h3)]
  rw [completeCount_update_status, completeCount_save]
  rw [completeCount_log_event _ _ _ _ _ _ _ _
    (by simp [isCompleteEvent, mkLogRow])]

theorem find?_map_update (eid : Nat) (s : ExperimentStatus) (cs : Option Nat)
    (w : Option String) :
    ∀ (l : List Experiment) (e : Experiment),
      l.find? (fun y => decide (y.id = eid)) = some e →
      (l.map fun y =>
          if y.id = eid then applyStatusUpdate s cs w y else y).find?
        (fun y => decide (y.id = eid)) = some (applyStatusUpdate s cs w e) := by
  intro l
  induction l with
  | nil => intro e h; simp at h
  | cons x rest ih =>
    intro e h
    simp only [List.map_cons]
    by_cases hx : x.id = eid
    · rw [if_pos hx]
      have hfind : List.find? (fun y => decide (y.id = eid)) (x :: rest) =
          some x :=
        List.find?_cons_of_pos rest (by simpa using hx)
      rw [hfind] at h
      have hxe : x = e := Option.some_inj.mp h
      have hgoal : List.find? (fun y => decide (y.id = eid))
          (applyStatusUpdate s cs w x ::
            rest.map fun y =>
              if y.id = eid then applyStatusUpdate s cs w y else y) =
          some (applyStatusUpdate s cs w x) :=
        List.find?_cons_of_pos _ (by simpa [applyStatusUpdate] using hx)
      rw [hgoal, hxe]
    · rw [if_neg hx]
      have hfind : List.find? (fun y => decide (y.id = eid)) (x :: rest) =
          List.find? (fun y => decide (y.id = eid)) rest :=
        List.find?_cons_of_neg rest (by simpa using hx)
      rw [hfind] at h
      have hgoal : List.find? (fun y => decide (y.id = eid))
          (x :: rest.map fun y =>
            if y.id = eid then applyStatusUpdate s cs w y else y) =
          List.find? (fun y => decide (y.id = eid))
            (rest.map fun y =>
              if y.id = eid then applyStatusUpdate s cs w y else y) :=
        List.find?_cons_of_neg _ (by simpa using hx)
      rw [hgoal]
      exact ih e h

theorem get_experiment_update (db : DB) (eid : Nat) (s : ExperimentStatus)
    (cs : Option Nat) (w : Option String) (e : Experiment)
    (h : get_experiment db eid = some e) :
    get_experiment (update_experiment_status db eid s cs w) eid =
      some (applyStatusUpdate s cs w e) :=
  find?_map_update eid s cs w db.experiments e h

@[simp] theorem rowsFor_log_event (db : DB) (e m : String) (i : Option Nat)
    (s w : String) (eid : Nat) (nm : String) :
    rowsFor (log_event db e m i s w) eid nm = rowsFor db eid nm := rfl

@[simp] theorem rowsFor_update_status (db : DB) (eid2 : Nat)
    (st : ExperimentStatus) (cs : Option Nat) (w : Option String)
    (eid : Nat) (nm : String) :
    rowsFor (update_experiment_status db eid2 st cs w) eid nm =
      rowsFor db eid nm := rfl

theorem runLoop_skip (env : RunEnv) (eid : Nat) (sa : Option Nat) (sf : Nat)
    (step_num : Nat) (step : Step) (rest : List (Nat × Step))
    (exp : Experiment) (db : DB)
    (h : step_num < sf ∨ step_num = 0
      ∨ (db_get_step_result db eid step.name).isSome = true
      ∨ step.shouldSkip exp = true) :
    runLoop env eid sa sf ((step_num, step) :: rest) exp db =
      runLoop env eid sa sf rest exp db := by
  conv_lhs => rw [runLoop]
  by_cases h1 : step_num < sf
  · rw [if_pos h1]
  · rw [if_neg h1]
    by_cases h2 : step_num = 0
    · rw [if_pos h2]
    · rw [if_neg h2]
      by_cases h3 : (db_get_step_result db eid step.name).isSome = true
      · rw [if_pos h3]
      · rw [if_neg h3]
        rcases h with h | h | h | h
        · exact absurd h h1
        · exact absurd h h2
        · exact absurd h h3
        · rw [if_pos h]

theorem runLoop_exec (env : RunEnv) (eid : Nat) (sa : Option Nat) (sf : Nat)
    (step_num : Nat) (step : Step) (rest : List (Nat × Step))
    (exp : Experiment) (db : DB)
    (h1 : ¬ step_num < sf) (h2 : step_num ≠ 0)
    (h3 : (db_get_step_result db eid step.name).isSome = false)
    (h4 : step.shouldSkip exp = false) :
    runLoop env eid sa sf ((step_num, step) :: rest) exp db =
      match env.runOutcome step_num with
      | .err _ =>
        (dbStepError env eid step_num step db,
         [(step_num, step.name)], .stepFailed)
      | .ok data =>
        gatesResult env eid sa step_num step data
          (dbStepDone env eid step_num step data db)
          (fun expNew => runLoop env eid sa sf rest expNew
            (dbStepDone env eid step_num step data db)) := by
  conv_lhs => rw [runLoop]
  rw [if_neg h1, if_neg h2, if_neg (by simp [h3]), if_neg (by simp [h4])]

theorem gatesResult_spec (env : RunEnv) (eid : Nat) (sa : Option Nat)
    (step_num : Nat) (step : Step) (data : String) (db4 : DB)
    (cont : Experiment → DB × List (Nat × String) × RunExit) :
    ((gatesResult env eid sa step_num step data db4 cont).2.1 =
        [(step_num, step.name)]
      ∧ (∀ eid2 nm,
          rowsFor (gatesResult env eid sa step_num step data db4 cont).1 eid2 nm
            = rowsFor db4 eid2 nm
          ∧ completeCount
              (gatesResult env eid sa step_num step data db4 cont).1 eid2 nm
            = completeCount db4 eid2 nm))
    ∨ (∃ expNew, get_experiment db4 eid = some expNew
        ∧ gatesResult env eid sa step_num step data db4 cont =
            ((cont expNew).1, (step_num, step.name) :: (cont expNew).2.1,
             (cont expNew).2.2)) := by
  unfold gatesResult
  split
  · left
    exact ⟨rfl, fun eid2 nm => ⟨rfl, rfl⟩⟩
  · rename_i expNew hexp
    split_ifs with hg1 hg2
    · left
      refine ⟨rfl, fun eid2 nm => ⟨rfl, ?_⟩⟩
      rw [completeCount_log_event _ _ _ _ _ _ _ _
        (by simp [isCompleteEvent, mkLogRow])]
      rw [completeCount_update_status]
    · left
      exact ⟨rfl, fun eid2 nm => ⟨rfl, rfl⟩⟩
    · split
      · rename_i v
        split_ifs with hv
        · left
          refine ⟨rfl, fun eid2 nm => ⟨rfl, ?_⟩⟩
          rw [completeCount_log_event _ _ _ _ _ _ _ _
            (by simp [isCompleteEvent, mkLogRow])]
        · right
          exact ⟨expNew, hexp, rfl⟩
      · right
        exact ⟨expNew, hexp, rfl⟩

theorem runLoop_exec_ok (env : RunEnv) (eid : Nat) (sa : Option Nat) (sf : Nat)
    (step_num : Nat) (step : Step) (rest : List (Nat × Step))
    (exp : Experiment) (db : DB)
    (h1 : ¬ step_num < sf) (h2 : step_num ≠ 0)
    (h3 : (db_get_step_result db eid step.name).isSome = false)
    (h4 : step.shouldSkip exp = false)
    (data : String) (hout : env.runOutcome step_num = .ok data) :
    runLoop env eid sa sf ((step_num, step) :: rest) exp db =
      gatesResult env eid sa step_num step data
        (dbStepDone env eid step_num step data db)
        (fun expNew => runLoop env eid sa sf rest expNew
          (dbStepDone env eid step_num step data db)) := by
  rw [runLoop_exec env eid sa sf step_num step rest exp db h1 h2 h3 h4, hout]

theorem runLoop_exec_err (env : RunEnv) (eid : Nat) (sa : Option Nat) (sf : Nat)
    (step_num : Nat) (step : Step) (rest : List (Nat × Step))
    (exp : Experiment) (db : DB)
    (h1 : ¬ step_num < sf) (h2 : step_num ≠ 0)
    (h3 : (db_get_step_result db eid step.name).isSome = false)
    (h4 : step.shouldSkip exp = false)
    (u : Unit) (hout : env.runOutcome step_num = .err u) :
    runLoop env eid sa sf ((step_num, step) :: rest) exp db =
      (dbStepError env eid step_num step db,
       [(step_num, step.name)], .stepFailed) := by
  rw [runLoop_exec env eid sa sf step_num step rest exp db h1 h2 h3 h4, hout]

theorem runLoop_exec_entries (env : RunEnv) (eid : Nat) (sa : Option Nat)
    (sf : Nat) :
    ∀ (steps : List (Nat × Step)) (exp : Experiment) (db : DB),
      ∀ p ∈ (runLoop env eid sa sf steps exp db).2.1,
        sf ≤ p.1 ∧ ∃ st : Step, (p.1, st) ∈ steps ∧ st.name = p.2 := by
  intro steps
  induction steps with
  | nil =>
    intro exp db p hp
    simp [runLoop] at hp
  | cons hd rest ih =>
    obtain ⟨step_num, step⟩ := hd
    intro exp db p hp
    by_cases hskip : step_num < sf ∨ step_num = 0
        ∨ (db_get_step_result db eid step.name).isSome = true
        ∨ step.shouldSkip exp = true
    · rw [runLoop_skip env eid sa sf step_num step rest exp db hskip] at hp
      obtain ⟨hsf, st, hm, hn⟩ := ih exp db p hp
      exact ⟨hsf, st, List.mem_cons_of_mem _ hm, hn⟩
    · push_neg at hskip
      obtain ⟨h1, h2, h3, h4⟩ := hskip
      have h1n : ¬ step_num < sf := by omega
      have h3f : (db_get_step_result db eid step.name).isSome = false := by
        simpa using h3
      have h4f : step.shouldSkip exp = false := by simpa using h4
      rcases hout : env.runOutcome step_num with data | u
      · rw [runLoop_exec_ok env eid sa sf step_num step rest exp db h1n h2 h3f
          h4f data hout] at hp
        rcases gatesResult_spec env eid sa step_num step data
            (dbStepDone env eid step_num step data db)
            (fun expNew => runLoop env eid sa sf rest expNew
              (dbStepDone env eid step_num step data db)) with
          hcase | ⟨expNew, _, heq⟩
        · rw [hcase.1] at hp
          rw [List.mem_singleton.mp hp]
          exact ⟨by omega, step, List.mem_cons_self _ _, rfl⟩
        · rw [heq] at hp
          rcases List.mem_cons.mp hp with hphead | hptail
          · rw [hphead]
            exact ⟨by omega, step, List.mem_cons_self _ _, rfl⟩
          · obtain ⟨hsf, st, hm, hn⟩ :=
              ih expNew (dbStepDone env eid step_num step data db) p hptail
            exact ⟨hsf, st, List.mem_cons_of_mem _ hm, hn⟩
      · rw [runLoop_exec_err env eid sa sf step_num step rest exp db h1n h2 h3f
          h4f u hout] at hp
        rw [List.mem_singleton.mp hp]
        exact ⟨by omega, step, List.mem_cons_self _ _, rfl⟩

theorem runLoop_untouched (env : RunEnv) (eid : Nat) (sa : Option Nat)
    (sf : Nat) :
    ∀ (steps : List (Nat × Step)) (exp : Experiment) (db : DB) (nm : String),
      (∀ p ∈ (runLoop env eid sa sf steps exp db).2.1, p.2 ≠ nm) →
      rowsFor (runLoop env eid sa sf steps exp db).1 eid nm = rowsFor db eid nm
      ∧ completeCount (runLoop env eid sa sf steps exp db).1 eid nm =
          completeCount db eid nm := by
  intro steps
  induction steps with
  | nil =>
    intro exp db nm _
    constructor
    · rfl
    · show completeCount (log_event
        (update_experiment_status db eid .completed none none)
        "pipeline_complete" "All steps completed" (some eid) ""
        env.worker_id) eid nm = completeCount db eid nm
      rw [completeCount_log_event _ _ _ _ _ _ _ _
        (by simp [isCompleteEvent, mkLogRow])]
      rw [completeCount_update_status]
  | cons hd rest ih =>
    obtain ⟨step_num, step⟩ := hd
    intro exp db nm h
    by_cases hskip : step_num < sf ∨ step_num = 0
        ∨ (db_get_step_result db eid step.name).isSome = true
        ∨ step.shouldSkip exp = true
    · rw [runLoop_skip env eid sa sf step_num step rest exp db hskip] at h ⊢
      exact ih exp db nm h
    · push_neg at hskip
      obtain ⟨h1, h2, h3, h4⟩ := hskip
      have h1n : ¬ step_num < sf := by omega
      have h3f : (db_get_step_result db eid step.name).isSome = false := by
        simpa using h3
      have h4f : step.shouldSkip exp = false := by simpa using h4
      rcases hout : env.runOutcome step_num with data | u
      · rw [runLoop_exec_ok env eid sa sf step_num step rest exp db h1n h2 h3f
          h4f data hout] at h ⊢
        rcases gatesResult_spec env eid sa step_num step data
            (dbStepDone env eid step_num step data db)
            (fun expNew => runLoop env eid sa sf rest expNew
              (dbStepDone env eid step_num step data db)) with
          hcase | ⟨expNew, _, heq⟩
        · have hname : step.name ≠ nm := by
            apply h (step_num, step.name)
            rw [hcase.1]
            exact List.mem_singleton.mpr rfl
          obtain ⟨hrw, hcc⟩ := hcase.2 eid nm
          rw [hrw, hcc, rowsFor_dbStepDone_other env eid step_num step data db
            eid nm hname, completeCount_dbStepDone_other env eid step_num step
            data db eid nm hname]
          exact ⟨rfl, rfl⟩
        · rw [heq] at h ⊢
          have hname : step.name ≠ nm :=
            h (step_num, step.name) (List.mem_cons_self _ _)
          have htail : ∀ p ∈ (runLoop env eid sa sf rest expNew
              (dbStepDone env eid step_num step data db)).2.1, p.2 ≠ nm :=
            fun p hp => h p (List.mem_cons_of_mem _ hp)
          obtain ⟨hrw, hcc⟩ :=
            ih expNew (dbStepDone env eid step_num step data db) nm htail
          rw [show ((runLoop env eid sa sf rest expNew
              (dbStepDone env eid step_num step data db)).1,
              (step_num, step.name) :: (runLoop env eid sa sf rest expNew
                (dbStepDone env eid step_num step data db)).2.1,
              (runLoop env eid sa sf rest expNew
                (dbStepDone env eid step_num step data db)).2.2).1 =
            (runLoop env eid sa sf rest expNew
              (dbStepDone env eid step_num step data db)).1 from rfl]
          rw [hrw, hcc, rowsFor_dbStepDone_other env eid step_num step data db
            eid nm hname, completeCount_dbStepDone_other env eid step_num step
            data db eid nm hname]
          exact ⟨rfl, rfl⟩
      · rw [runLoop_exec_err env eid sa sf step_num step rest exp db h1n h2 h3f
          h4f u hout]
        rw [show (dbStepError env eid step_num step db,
            [(step_num, step.name)], RunExit.stepFailed).1 =
          dbStepError env eid step_num step db from rfl]
        rw [rowsFor_dbStepError, completeCount_dbStepError]
        exact ⟨rfl, rfl⟩

theorem nodup_keys_unique (l : List (Nat × Step))
    (h : (l.map Prod.fst).Nodup) :
    ∀ m st2, (m, st2) ∈ l → ∀ n st, (n, st) ∈ l → m = n → st2 = st := by
  induction l with
  | nil => intro m st2 hm; simp at hm
  | cons x rest ih =>
    intro m st2 hm n st hn heq
    rw [List.map_cons] at h
    have hnotin : x.1 ∉ rest.map Prod.fst := (List.nodup_cons.mp h).1
    have hnd : (rest.map Prod.fst).Nodup := (List.nodup_cons.mp h).2
    rcases List.mem_cons.mp hm with h1 | h1 <;>
      rcases List.mem_cons.mp hn with h2 | h2
    · have e1 : st2 = x.2 := congrArg Prod.snd h1
      have e2 : st = x.2 := congrArg Prod.snd h2
      rw [e1, e2]
    · exfalso
      apply hnotin
      have hm1 : m = x.1 := congrArg Prod.fst h1
      have hx1 : x.1 = n := by omega
      rw [hx1]
      exact List.mem_map_of_mem Prod.fst h2
    · exfalso
      apply hnotin
      have hn1 : n = x.1 := congrArg Prod.fst h2
      have hx1 : x.1 = m := by omega
      rw [hx1]
      exact List.mem_map_of_mem Prod.fst h1
    · exact ih hnd m st2 h1 n st h2 heq

theorem runLoop_complete_skipped (env : RunEnv) (eid : Nat) (sa : Option Nat)
    (sf : Nat) :
    ∀ (steps : List (Nat × Step)) (exp : Experiment) (db : DB)
      (n : Nat) (st : Step),
      (n, st) ∈ steps →
      (db_get_step_result db eid st.name).isSome = true →
      (∀ m st2, (m, st2) ∈ steps → m = n → st2 = st) →
      (n, st.name) ∉ (runLoop env eid sa sf steps exp db).2.1 := by
  intro steps
  induction steps with
  | nil => intro exp db n st hmem; simp at hmem
  | cons hd rest ih =>
    obtain ⟨step_num, step⟩ := hd
    intro exp db n st hmem hpres huniq hin
    by_cases hskip : step_num < sf ∨ step_num = 0
        ∨ (db_get_step_result db eid step.name).isSome = true
        ∨ step.shouldSkip exp = true
    · rw [runLoop_skip env eid sa sf step_num step rest exp db hskip] at hin
      rcases List.mem_cons.mp hmem with hhd | hrest
      · obtain ⟨_, st3, hm3, hn3⟩ := runLoop_exec_entries env eid sa sf rest
          exp db (n, st.name) hin
        have : st3 = st := huniq n st3 (List.mem_cons_of_mem _ hm3) rfl
        rw [this] at hm3
        exact ih exp db n st hm3 hpres
          (fun m st2 hm2 heq => huniq m st2 (List.mem_cons_of_mem _ hm2) heq)
          hin
      · exact ih exp db n st hrest hpres
          (fun m st2 hm2 heq => huniq m st2 (List.mem_cons_of_mem _ hm2) heq)
          hin
    · push_neg at hskip
      obtain ⟨h1, h2, h3, h4⟩ := hskip
      have h1n : ¬ step_num < sf := by omega
      have h3f : (db_get_step_result db eid step.name).isSome = false := by
        simpa using h3
      have h4f : step.shouldSkip exp = false := by simpa using h4
      have hne_head : ¬((n : Nat), st.name) = (step_num, step.name) := by
        intro habs
        have hn : n = step_num := congrArg Prod.fst habs
        have : step = st := huniq step_num step (List.mem_cons_self _ _) hn.symm
        rw [← this] at hpres
        rw [hpres] at h3f
        simp at h3f
      have hmem_rest : (n, st) ∈ rest := by
        rcases List.mem_cons.mp hmem with hhd | hrest
        · exfalso
          apply hne_head
          rw [show step_num = n from (congrArg Prod.fst hhd).symm,
            show step = st from (congrArg Prod.snd hhd).symm]
        · exact hrest
      rcases hout : env.runOutcome step_num with data | u
      · rw [runLoop_exec_ok env eid sa sf step_num step rest exp db h1n h2 h3f
          h4f data hout] at hin
        rcases gatesResult_spec env eid sa step_num step data
            (dbStepDone env eid step_num step data db)
            (fun expNew => runLoop env eid sa sf rest expNew
              (dbStepDone env eid step_num step data db)) with
          hcase | ⟨expNew, _, heq⟩
        · rw [hcase.1] at hin
          exact hne_head (List.mem_singleton.mp hin)
        · rw [heq] at hin
          rcases List.mem_cons.mp hin with hh | ht
          · exact hne_head hh
          · exact ih expNew (dbStepDone env eid step_num step data db) n st
              hmem_rest
              (db_get_isSome_dbStepDone env eid step_num step data db eid
                st.name hpres)
              (fun m st2 hm2 heq2 =>
                huniq m st2 (List.mem_cons_of_mem _ hm2) heq2)
              ht
      · rw [runLoop_exec_err env eid sa sf step_num step rest exp db h1n h2 h3f
          h4f u hout] at hin
        exact hne_head (List.mem_singleton.mp hin)

theorem option_isSome_false_eq_none {α : Type} (o : Option α)
    (h : o.isSome = false) : o = none := by
  cases o with
  | none => rfl
  | some v => simp at h

theorem save_insert_rows (db : DB) (eid : Nat) (nm : String) (num : Nat)
    (d w : String) (h : db_get_step_result db eid nm = none) :
    (db_save_step_result db eid nm num d w).step_results =
      db.step_results ++
        [newStepResultRow db.next_result_id 0 eid nm num d w] := by
  rw [step_results_save]
  unfold save_step_result
  have hnone : saveGo eid nm d w db.step_results = none := by
    rw [saveGo_none_iff]
    intro r hr
    have := List.find?_eq_none.mp h r hr
    simpa [stepKey] using this
  rw [hnone]

theorem db_get_after_insert (db : DB) (eid : Nat) (nm : String) (num : Nat)
    (d w : String) (h : db_get_step_result db eid nm = none) :
    db_get_step_result (db_save_step_result db eid nm num d w) eid nm =
      some (newStepResultRow db.next_result_id 0 eid nm num d w) := by
  unfold db_get_step_result
  rw [show (db_save_step_result db eid nm num d w).step_results =
    db.step_results ++ [newStepResultRow db.next_result_id 0 eid nm num d w]
    from save_insert_rows db eid nm num d w h]
  rw [List.find?_append]
  rw [show db.step_results.find? (stepKey eid nm) = none from h]
  rw [Option.none_or]
  exact List.find?_cons_of_pos _ (by simp [stepKey, newStepResultRow])

theorem get_experiment_isSome_update (db : DB) (eid2 : Nat)
    (s : ExperimentStatus) (cs : Option Nat) (w : Option String) (eid : Nat)
    (h : (get_experiment db eid).isSome = true) :
    (get_experiment (update_experiment_status db eid2 s cs w) eid).isSome
      = true := by
  unfold get_experiment at h ⊢
  unfold update_experiment_status
  rw [List.find?_isSome] at h ⊢
  obtain ⟨x, hx, hpx⟩ := h
  refine ⟨if x.id = eid2 then applyStatusUpdate s cs w x else x,
    List.mem_map_of_mem _ hx, ?_⟩
  by_cases hc : x.id = eid2
  · rw [if_pos hc]
    simpa [applyStatusUpdate] using hpx
  · rw [if_neg hc]
    exact hpx

theorem get_experiment_isSome_dbStepDone (env : RunEnv) (eid2 step_num : Nat)
    (step : Step) (data : String) (db : DB) (eid : Nat)
    (h : (get_experiment db eid).isSome = true) :
    (get_experiment (dbStepDone env eid2 step_num step data db) eid).isSome
      = true := by
  unfold dbStepDone dbStepStart
  rw [get_experiment_log_event]
  apply get_experiment_isSome_update
  rw [get_experiment_save, get_experiment_log_event]
  exact h

theorem gatesResult_nogo (env : RunEnv) (eid : Nat) (sa : Option Nat)
    (step_num : Nat) (step : Step) (data : String) (db4 : DB)
    (cont : Experiment → DB × List (Nat × String) × RunExit)
    (expNew : Experiment) (hexp : get_experiment db4 eid = some expNew)
    (hgate : step.name = "scoring" ∧ scoringNoGo env db4 eid = true) :
    gatesResult env eid sa step_num step data db4 cont =
      (log_event (update_experiment_status db4 eid .no_go (some step_num) none)
        "pipeline_nogo" "Pre-build score below threshold" (some eid) ""
        env.worker_id,
       [(step_num, step.name)], .noGo) := by
  unfold gatesResult
  simp only [hexp]
  rw [if_pos hgate]

theorem runLoop_scoring_nogo (env : RunEnv) (eid : Nat) (sa : Option Nat)
    (sf : Nat) (n : Nat) (st : Step) (d : String)
    (hstname : st.name = "scoring")
    (hout : env.runOutcome n = .ok d)
    (hdec : env.parseDecision d = some "no_go") :
    ∀ (steps : List (Nat × Step)) (exp : Experiment) (db : DB),
      (get_experiment db eid).isSome = true →
      (steps.map Prod.fst).Pairwise (· < ·) →
      (n, st) ∈ steps →
      (n, "scoring") ∈ (runLoop env eid sa sf steps exp db).2.1 →
      (runLoop env eid sa sf steps exp db).2.2 = .noGo
      ∧ (∃ e, get_experiment (runLoop env eid sa sf steps exp db).1 eid = some e
          ∧ e.status = .no_go)
      ∧ (∀ p ∈ (runLoop env eid sa sf steps exp db).2.1, p.1 ≤ n)
      ∧ (∀ r ∈ (runLoop env eid sa sf steps exp db).1.step_results,
          r ∈ db.step_results ∨ r.step_number ≤ n) := by
  intro steps
  induction steps with
  | nil =>
    intro exp db _ _ hmem _
    simp at hmem
  | cons hd rest ih =>
    obtain ⟨m, step2⟩ := hd
    intro exp db hpres hpair hmem hin
    have hpairTail : (rest.map Prod.fst).Pairwise (· < ·) := by
      rw [List.map_cons] at hpair
      exact (List.pairwise_cons.mp hpair).2
    have hheadLt : ∀ y ∈ rest.map Prod.fst, m < y := by
      rw [List.map_cons] at hpair
      exact (List.pairwise_cons.mp hpair).1
    by_cases hskip : m < sf ∨ m = 0
        ∨ (db_get_step_result db eid step2.name).isSome = true
        ∨ step2.shouldSkip exp = true
    · rw [runLoop_skip env eid sa sf m step2 rest exp db hskip] at hin ⊢
      have hmem_rest : (n, st) ∈ rest := by
        rcases List.mem_cons.mp hmem with hhd | hrest
        · exfalso
          obtain ⟨_, st3, hm3, _⟩ := runLoop_exec_entries env eid sa sf rest
            exp db (n, "scoring") hin
          have hmn : n = m := congrArg Prod.fst hhd
          have := hheadLt n (List.mem_map_of_mem Prod.fst hm3)
          omega
        · exact hrest
      exact ih exp db hpres hpairTail hmem_rest hin
    · push_neg at hskip
      obtain ⟨h1, h2, h3, h4⟩ := hskip
      have h1n : ¬ m < sf := by omega
      have h3f : (db_get_step_result db eid step2.name).isSome = false := by
        simpa using h3
      have h4f : step2.shouldSkip exp = false := by simpa using h4
      rcases hout2 : env.runOutcome m with data | u
      · by_cases hmn : m = n
        · subst hmn
          have hnodup : (((m, step2) :: rest).map Prod.fst).Nodup :=
            hpair.imp fun hlt => Nat.ne_of_lt hlt
          have hstep2 : step2 = st :=
            nodup_keys_unique _ hnodup m step2 (List.mem_cons_self _ _)
              m st hmem rfl
          subst hstep2
          have hdata : data = d := by
            rw [hout] at hout2
            injection hout2 with h
            exact h.symm
          subst hdata
          have hnone : db_get_step_result db eid step2.name = none :=
            option_isSome_false_eq_none _ h3f
          have hsno : scoringNoGo env (dbStepDone env eid m step2 data db) eid
              = true := by
            unfold scoringNoGo
            rw [← hstname]
            unfold dbStepDone dbStepStart
            rw [db_get_log_event, db_get_update_status]
            rw [db_get_after_insert _ eid step2.name m data env.worker_id
              (by rw [db_get_log_event]; exact hnone)]
            simp [newStepResultRow, hdec]
          have hpres4 : (get_experiment
              (dbStepDone env eid m step2 data db) eid).isSome = true :=
            get_experiment_isSome_dbStepDone env eid m step2 data db eid hpres
          obtain ⟨e4, he4⟩ := Option.isSome_iff_exists.mp hpres4
          have hrows4 : (dbStepDone env eid m step2 data db).step_results =
              db.step_results ++ [newStepResultRow db.next_result_id 0 eid
                step2.name m data env.worker_id] := by
            unfold dbStepDone dbStepStart
            rw [step_results_log_event, step_results_update_status]
            rw [save_insert_rows _ eid step2.name m data env.worker_id
              (by rw [db_get_log_event]; exact hnone)]
            rfl
          rw [runLoop_exec_ok env eid sa sf m step2 rest exp db h1n h2 h3f h4f
            data hout2]
          rw [gatesResult_nogo env eid sa m step2 data
            (dbStepDone env eid m step2 data db)
            (fun expNew => runLoop env eid sa sf rest expNew
              (dbStepDone env eid m step2 data db))
            e4 he4 ⟨hstname, hsno⟩]
          refine ⟨rfl, ?_, ?_, ?_⟩
          · refine ⟨applyStatusUpdate .no_go (some m) none e4, ?_, rfl⟩
            rw [show (log_event (update_experiment_status
                (dbStepDone env eid m step2 data db) eid .no_go (some m) none)
                "pipeline_nogo" "Pre-build score below threshold" (some eid) ""
                env.worker_id, [(m, step2.name)],
                RunExit.noGo).1 =
              log_event (update_experiment_status
                (dbStepDone env eid m step2 data db) eid .no_go (some m) none)
                "pipeline_nogo" "Pre-build score below threshold" (some eid) ""
                env.worker_id from rfl]
            rw [get_experiment_log_event]
            exact get_experiment_update _ eid .no_go (some m) none e4 he4
          · intro p hp
            rw [List.mem_singleton.mp hp]
          · intro r hr
            rw [show (log_event (update_experiment_status
                (dbStepDone env eid m step2 data db) eid .no_go (some m) none)
                "pipeline_nogo" "Pre-build score below threshold" (some eid) ""
                env.worker_id, [(m, step2.name)],
                RunExit.noGo).1.step_results =
              (dbStepDone env eid m step2 data db).step_results from rfl] at hr
            rw [hrows4] at hr
            rcases List.mem_append.mp hr with hdb | hnew
            · exact Or.inl hdb
            · right
              rw [List.mem_singleton.mp hnew]
              exact Nat.le_refl m
        · rw [runLoop_exec_ok env eid sa sf m step2 rest exp db h1n h2 h3f h4f
            data hout2] at hin ⊢
          have hmem_rest : (n, st) ∈ rest := by
            rcases List.mem_cons.mp hmem with hhd | hr
            · exact absurd (congrArg Prod.fst hhd).symm hmn
            · exact hr
          have hmltn : m < n :=
            hheadLt n (List.mem_map_of_mem Prod.fst hmem_rest)
          rcases gatesResult_spec env eid sa m step2 data
              (dbStepDone env eid m step2 data db)
              (fun expNew => runLoop env eid sa sf rest expNew
                (dbStepDone env eid m step2 data db)) with
            hcase | ⟨expNew, hexpNew, heq⟩
          · rw [hcase.1] at hin
            exact absurd (congrArg Prod.fst (List.mem_singleton.mp hin)).symm
              hmn
          · rw [heq] at hin ⊢
            rcases List.mem_cons.mp hin with hh | ht
            · exact absurd (congrArg Prod.fst hh).symm hmn
            · have hnone2 : db_get_step_result db eid step2.name = none :=
                option_isSome_false_eq_none _ h3f
              have hrows4 : (dbStepDone env eid m step2 data db).step_results =
                  db.step_results ++ [newStepResultRow db.next_result_id 0 eid
                    step2.name m data env.worker_id] := by
                unfold dbStepDone dbStepStart
                rw [step_results_log_event, step_results_update_status]
                rw [save_insert_rows _ eid step2.name m data env.worker_id
                  (by rw [db_get_log_event]; exact hnone2)]
                rfl
              obtain ⟨hexit, hstatus, hle, hrows⟩ :=
                ih expNew (dbStepDone env eid m step2 data db)
                  (get_experiment_isSome_dbStepDone env eid m step2 data db eid
                    hpres)
                  hpairTail hmem_rest ht
              refine ⟨hexit, hstatus, ?_, ?_⟩
              · intro p hp
                rcases List.mem_cons.mp hp with hph | hpt
                · rw [hph]
                  exact le_of_lt hmltn
                · exact hle p hpt
              · intro r hr
                rcases hrows r hr with hdb4 | hnum
                · rw [hrows4] at hdb4
                  rcases List.mem_append.mp hdb4 with hdb | hnew
                  · exact Or.inl hdb
                  · right
                    rw [List.mem_singleton.mp hnew]
                    exact le_of_lt hmltn
                · exact Or.inr hnum
      · rw [runLoop_exec_err env eid sa sf m step2 rest exp db h1n h2 h3f h4f
          u hout2] at hin
        have heq2 := List.mem_singleton.mp hin
        have hmn : m = n := (congrArg Prod.fst heq2).symm
        rw [hmn, hout] at hout2
        exact absurd hout2 (by simp)

/-- C5 counterexample scenario: an experiment stopped at the scoring stage
with status no_go and a persisted scoring result whose decision is no_go.
On re-invocation the persisted scoring row makes is_complete skip the
scoring stage, so the gate (which only runs after a stage just executed)
never fires, and the later stage runs. -/
def scoringStepC5 : Step where
  name := "scoring"

def laterStepC5 : Step where
  name := "later"

def parseDecisionC5 (s : String) : Option String :=
  if s = "sc" then some "no_go" else none

def envC5 : RunEnv where
  steps := [(2, scoringStepC5), (3, laterStepC5)]
  runOutcome := fun k => if k = 3 then .ok "ld" else .err ()
  parseDecision := parseDecisionC5
  parseApproved := fun _ => true
  parseSkipped := fun _ => false

def expC5 : Experiment where
  id := 1
  status := .no_go
  current_step := 2

def scRowC5 : StepResultRow := newStepResultRow 0 0 1 "scoring" 2 "sc" ""

def dbC5 : DB where
  experiments := [expC5]
  step_results := [scRowC5]
  log := []
  next_result_id := 1

/-- Counterexample to C5 as stated: dbC5 holds a persisted scoring StepResult
whose decision parses to no_go, yet run_experiment executes stage 3 (a higher
stage number), inserts a StepResult with step_number 3, and finishes
completedAll — because is_complete (a persisted row exists) makes the loop
skip the scoring stage, and the decision gate only runs right after the
scoring stage executes in the same invocation (runner.py lines 161-168 and
226-243). -/
theorem scoring_gate_counterexample :
    envC5.parseDecision scRowC5.data_json = some "no_go"
    ∧ db_get_step_result dbC5 1 "scoring" = some scRowC5
    ∧ (run_experiment envC5 dbC5 1 none).2.1 = [(3, "later")]
    ∧ (run_experiment envC5 dbC5 1 none).2.2 = .completedAll
    ∧ ∃ r ∈ (run_experiment envC5 dbC5 1 none).1.step_results,
        r.step_number = 3 := by
  refine ⟨rfl, rfl, rfl, rfl, ?_⟩
  decide

/-- C5 (amended): the scoring decision gate as the code implements it — in
any run in which the scoring stage actually EXECUTES (it appears in the
run's executed-stage trace) and its produced result's decision is no_go, the
run exits with noGo, the experiment's status is set to no_go, every executed
stage number is at most the scoring stage's number, and every StepResult row
after the run either pre-existed or has step_number at most the scoring
stage's number.  The unamended claim (gating on a merely PERSISTED scoring
result) is refuted by scoring_gate_counterexample: a persisted scoring row
makes the loop skip the stage, so the gate never re-fires. -/
theorem scoring_gate_spec (env : RunEnv) (db : DB) (eid : Nat)
    (sa : Option Nat) (n : Nat) (st : Step) (d : String)
    (hstname : st.name = "scoring")
    (hpair : (env.steps.map Prod.fst).Pairwise (· < ·))
    (hmem : (n, st) ∈ env.steps)
    (hout : env.runOutcome n = .ok d)
    (hdec : env.parseDecision d = some "no_go")
    (hin : (n, "scoring") ∈ (run_experiment env db eid sa).2.1) :
    (run_experiment env db eid sa).2.2 = .noGo
    ∧ (∃ e, get_experiment (run_experiment env db eid sa).1 eid = some e
        ∧ e.status = .no_go)
    ∧ (∀ p ∈ (run_experiment env db eid sa).2.1, p.1 ≤ n)
    ∧ (∀ r ∈ (run_experiment env db eid sa).1.step_results,
        r ∈ db.step_results ∨ r.step_number ≤ n) := by
  unfold run_experiment at hin ⊢
  rcases hexp : get_experiment db eid with _ | exp
  · simp only [hexp] at hin
    simp at hin
  · simp only [hexp] at hin ⊢
    by_cases hterm : exp.status = .completed ∨ exp.status = .archived
        ∨ exp.status = .rejected
    · rw [if_pos hterm] at hin
      simp at hin
    · rw [if_neg hterm] at hin ⊢
      by_cases hrev : exp.status = .awaiting_review ∧ env.dry_run = false
      · rw [if_pos hrev] at hin
        simp at hin
      · rw [if_neg hrev] at hin ⊢
        have hpres : (get_experiment (log_event
            (update_experiment_status db eid .running none
              (some env.worker_id))
            "pipeline_start" "" (some eid) "" env.worker_id) eid).isSome
            = true := by
          rw [get_experiment_log_event]
          exact get_experiment_isSome_update db eid .running none
            (some env.worker_id) eid (by rw [hexp]; rfl)
        exact runLoop_scoring_nogo env eid sa
          (if 0 < exp.current_step then max exp.current_step 1 else 1)
          n st d hstname hout hdec env.steps exp _ hpres hpair hmem hin

/-- Witness scenario for the amended C5: a fresh experiment whose scoring
stage (stage 1) executes and produces a no_go decision. -/
def scStepC5w : Step where
  name := "scoring"

def envC5w : RunEnv where
  steps := [(1, scStepC5w), (2, laterStepC5)]
  runOutcome := fun k => if k = 1 then .ok "sc" else .ok "ld"
  parseDecision := parseDecisionC5
  parseApproved := fun _ => true
  parseSkipped := fun _ => false

def expC5w : Experiment where
  id := 1

def dbC5w : DB where
  experiments := [expC5w]
  step_results := []
  log := []

/-- Witness: scoring_gate_spec applied to the concrete no_go run. -/
theorem scoring_gate_spec_witness :
    (run_experiment envC5w dbC5w 1 none).2.2 = .noGo
    ∧ (∃ e, get_experiment (run_experiment envC5w dbC5w 1 none).1 1 = some e
        ∧ e.status = .no_go)
    ∧ (∀ p ∈ (run_experiment envC5w dbC5w 1 none).2.1, p.1 ≤ 1)
    ∧ (∀ r ∈ (run_experiment envC5w dbC5w 1 none).1.step_results,
        r ∈ dbC5w.step_results ∨ r.step_number ≤ 1) :=
  scoring_gate_spec envC5w dbC5w 1 none 1 scStepC5w "sc" rfl (by decide)
    (List.mem_cons_self _ _) rfl rfl (by decide)

theorem nodup_names_unique (l : List (Nat × Step))
    (h : (l.map fun q => q.2.name).Nodup) :
    ∀ m st2, (m, st2) ∈ l → ∀ n st, (n, st) ∈ l → st2.name = st.name →
      m = n ∧ st2 = st := by
  induction l with
  | nil => intro m st2 hm; simp at hm
  | cons x rest ih =>
    intro m st2 hm n st hn heq
    rw [List.map_cons] at h
    have hnotin : x.2.name ∉ rest.map (fun q => q.2.name) :=
      (List.nodup_cons.mp h).1
    have hnd : (rest.map fun q => q.2.name).Nodup := (List.nodup_cons.mp h).2
    rcases List.mem_cons.mp hm with h1 | h1 <;>
      rcases List.mem_cons.mp hn with h2 | h2
    · constructor
      · exact (congrArg Prod.fst h1).trans (congrArg Prod.fst h2).symm
      · exact (congrArg Prod.snd h1).trans (congrArg Prod.snd h2).symm
    · exfalso
      apply hnotin
      have e1 : st2 = x.2 := congrArg Prod.snd h1
      rw [e1] at heq
      rw [heq]
      exact List.mem_map_of_mem _ h2
    · exfalso
      apply hnotin
      have e2 : st = x.2 := congrArg Prod.snd h2
      rw [e2] at heq
      rw [← heq]
      exact List.mem_map_of_mem _ h1
    · exact ih hnd m st2 h1 n st h2 heq

/-- C2: run_experiment is idempotent across checkpoints.  Part one: on an
experiment whose status is terminal (completed, archived or rejected) it
returns the store unchanged with an empty executed-stage trace — a no-op
every time it is called.  Part two: on a failed experiment checkpointed at
stage k (current_step = k > 0), with the registry sorted by stage number and
stage names distinct, (i) every executed stage has number at least k, (ii) a
stage that already has a persisted StepResult is never executed, and (iii)
for every stage with number below k neither its StepResult rows nor its
step_complete event count change — no duplicate rows or events for earlier
stages. -/
theorem run_experiment_checkpoint_idempotent (env : RunEnv) (db : DB)
    (eid : Nat) (sa : Option Nat) :
    (∀ exp, get_experiment db eid = some exp →
      exp.status = .completed ∨ exp.status = .archived
        ∨ exp.status = .rejected →
      run_experiment env db eid sa = (db, [], .terminalNoop))
    ∧ (∀ exp k, get_experiment db eid = some exp →
        exp.status = .failed → exp.current_step = k → 0 < k →
        (env.steps.map Prod.fst).Pairwise (· < ·) →
        (env.steps.map fun q => q.2.name).Nodup →
        (∀ p ∈ (run_experiment env db eid sa).2.1, k ≤ p.1)
        ∧ (∀ n st, (n, st) ∈ env.steps →
            (db_get_step_result db eid st.name).isSome = true →
            (n, st.name) ∉ (run_experiment env db eid sa).2.1)
        ∧ (∀ n st, (n, st) ∈ env.steps → n < k →
            rowsFor (run_experiment env db eid sa).1 eid st.name =
              rowsFor db eid st.name
            ∧ completeCount (run_experiment env db eid sa).1 eid st.name =
                completeCount db eid st.name)) := by
  constructor
  · intro exp hexp hterm
    unfold run_experiment
    simp only [hexp]
    rw [if_pos hterm]
  · intro exp k hexp hst hcs hk hpair hnames
    have hterm : ¬(exp.status = .completed ∨ exp.status = .archived
        ∨ exp.status = .rejected) := by
      rw [hst]
      simp
    have hrev : ¬(exp.status = .awaiting_review ∧ env.dry_run = false) := by
      rw [hst]
      simp
    have hred : run_experiment env db eid sa =
        runLoop env eid sa
          (if 0 < exp.current_step then max exp.current_step 1 else 1)
          env.steps exp
          (log_event (update_experiment_status db eid .running none
            (some env.worker_id)) "pipeline_start" "" (some eid) ""
            env.worker_id) := by
      unfold run_experiment
      simp only [hexp]
      rw [if_neg hterm, if_neg hrev]
    have hsf : (if 0 < exp.current_step then max exp.current_step 1 else 1)
        = k := by
      rw [hcs, if_pos hk]
      omega
    rw [hred, hsf]
    refine ⟨?_, ?_, ?_⟩
    · intro p hp
      exact (runLoop_exec_entries env eid sa k env.steps exp _ p hp).1
    · intro n st hmem hpres
      exact runLoop_complete_skipped env eid sa k env.steps exp _ n st hmem
        (by
          rw [show db_get_step_result (log_event (update_experiment_status db
            eid .running none (some env.worker_id)) "pipeline_start" ""
            (some eid) "" env.worker_id) eid st.name =
            db_get_step_result db eid st.name from rfl]
          exact hpres)
        (fun m st2 hm2 heq =>
          nodup_keys_unique env.steps (hpair.imp fun hlt => Nat.ne_of_lt hlt)
            m st2 hm2 n st hmem heq)
    · intro n st hmem hlt
      have hnot : ∀ p ∈ (runLoop env eid sa k env.steps exp
          (log_event (update_experiment_status db eid .running none
            (some env.worker_id)) "pipeline_start" "" (some eid) ""
            env.worker_id)).2.1, p.2 ≠ st.name := by
        intro p hp hcontra
        obtain ⟨hk2, st3, hmem3, hname3⟩ :=
          runLoop_exec_entries env eid sa k env.steps exp _ p hp
        obtain ⟨he1, _⟩ := nodup_names_unique env.steps hnames p.1 st3 hmem3
          n st hmem (by rw [hname3, hcontra])
        omega
      obtain ⟨hrows, hcc⟩ := runLoop_untouched env eid sa k env.steps exp
        (log_event (update_experiment_status db eid .running none
          (some env.worker_id)) "pipeline_start" "" (some eid) ""
          env.worker_id) st.name hnot
      constructor
      · rw [hrows]
        rw [rowsFor_log_event, rowsFor_update_status]
      · rw [hcc]
        rw [completeCount_log_event _ _ _ _ _ _ _ _
          (by simp [isCompleteEvent, mkLogRow])]
        rw [completeCount_update_status]

/-- Witness scenario for C2: a two-stage registry; one store with a
completed experiment (terminal no-op half), one with a failed experiment
checkpointed at stage 2 whose stage-1 result is already persisted (resume
half). -/
def draftStepC2 : Step where
  name := "draft"

def buildStepC2 : Step where
  name := "build"

def envC2 : RunEnv where
  steps := [(1, draftStepC2), (2, buildStepC2)]
  runOutcome := fun _ => .ok "x"
  parseDecision := fun _ => none
  parseApproved := fun _ => true
  parseSkipped := fun _ => false

def expDoneC2 : Experiment where
  id := 1
  status := .completed
  current_step := 2

def expFailC2 : Experiment where
  id := 1
  status := .failed
  current_step := 2

def draftRowC2 : StepResultRow := newStepResultRow 0 0 1 "draft" 1 "dd" ""

def dbDoneC2 : DB where
  experiments := [expDoneC2]
  step_results := [draftRowC2]
  log := []
  next_result_id := 1

def dbFailC2 : DB where
  experiments := [expFailC2]
  step_results := [draftRowC2]
  log := []
  next_result_id := 1

/-- Witness: run_experiment_checkpoint_idempotent applied to the concrete
terminal and failed-at-stage-2 stores. -/
theorem run_experiment_checkpoint_idempotent_witness :
    run_experiment envC2 dbDoneC2 1 none = (dbDoneC2, [], .terminalNoop)
    ∧ (∀ p ∈ (run_experiment envC2 dbFailC2 1 none).2.1, 2 ≤ p.1)
    ∧ (1, "draft") ∉ (run_experiment envC2 dbFailC2 1 none).2.1
    ∧ rowsFor (run_experiment envC2 dbFailC2 1 none).1 1 "draft" =
        rowsFor dbFailC2 1 "draft"
    ∧ completeCount (run_experiment envC2 dbFailC2 1 none).1 1 "draft" =
        completeCount dbFailC2 1 "draft" := by
  have ha := (run_experiment_checkpoint_idempotent envC2 dbDoneC2 1 none).1
    expDoneC2 rfl (Or.inl rfl)
  obtain ⟨h1, h2, h3⟩ :=
    (run_experiment_checkpoint_idempotent envC2 dbFailC2 1 none).2
      expFailC2 2 rfl rfl rfl (by decide) (by decide) (by decide)
  obtain ⟨h3a, h3b⟩ := h3 1 draftStepC2 (List.mem_cons_self _ _) (by decide)
  exact ⟨ha, h1, h2 1 draftStepC2 (List.mem_cons_self _ _) rfl, h3a, h3b⟩

end Verdandi



